import Mathlib

/-!
# Chat broadcast server (`src/server.go`): shallow embedding and verification

The Go server keeps, behind one mutex, a history slice and a map from client id
to a buffered channel.  The model keeps the channels in a heap (`chans`, a
channel value is its index), the map as an association list, and the delivery
goroutines spawned by `appendAndBroadcast` as a list of pending sends.

* Every critical section of the source is one function on the state:
  `registerLocked`, `appendAndBroadcast`, `Unregister`, the lookup of `Poll`.
  `Register`, `SendMessage`, `Poll` compose them for a call that runs alone.
* `step` is the scheduler: it runs one critical section, one pending send or
  one receive.  A `World` adds to the server the calls that are between two
  critical sections and two ghost logs: what every `Poll` returned and from
  which channel, and which sends completed on which channel.
* `runInOrder` runs the schedules in which no delivery goroutine completes its
  send before one that was spawned earlier for the same channel.
* Spawning the goroutines is folded into the critical section of
  `appendAndBroadcast`: a spawned send can run at any later step, in any order
  (which also covers the unspecified iteration order of a Go map).
* A send on a closed channel and a `close` of a closed channel panic; the
  process is then dead (`panicked`), and no further step is enabled.
* `time.Now()` is an input of the call (`now : Nat`).
-/

namespace ChatBroadcast

/-! ## Data model -/

deriving instance DecidableEq for Except

/-- Go `type Message struct { From, Text string; Time time.Time }`. -/
structure Message where
  From : String
  Text : String
  Time : Nat
deriving DecidableEq, Repr

/-- A Go `chan Message` of capacity 32: the buffered messages, oldest first,
and whether `close` was called on it.  `owner` is a ghost field: the client id
the channel was made for in `Register`. -/
structure Chan where
  buf : List Message
  closed : Bool
  owner : String
deriving DecidableEq, Repr

/-- A goroutine `go func(c chan Message) { c <- msg }(ch)` that was spawned and
has not completed its send.  `toID` is a ghost field: the key of the loop
iteration that spawned it (the goroutine itself holds only `c` and `msg`). -/
structure Delivery where
  toID : String
  c : Nat
  msg : Message
deriving DecidableEq, Repr

/-- Go `type ChatServer struct { mu; history; clients }` together with the
channel heap, the delivery goroutines in flight, and whether the process has
panicked. -/
structure ChatServer where
  history : List Message
  clients : List (String × Nat)
  chans : List Chan
  pending : List Delivery
  panicked : Bool
deriving DecidableEq, Repr

/-- Capacity of `make(chan Message, 32)`. -/
def chanCap : Nat := 32

/-! ## The Go map `clients` as an association list -/

/-- Go `ch, ok := m[id]`. -/
def mapGet : List (String × Nat) → String → Option Nat
  | [], _ => none
  | (k, v) :: rest, id => if k = id then some v else mapGet rest id

/-- Go `m[id] = ch`: replaces the value of an existing key, adds a new key. -/
def mapSet : List (String × Nat) → String → Nat → List (String × Nat)
  | [], id, ch => [(id, ch)]
  | (k, v) :: rest, id, ch =>
      if k = id then (k, ch) :: rest else (k, v) :: mapSet rest id ch

/-- Go `delete(m, id)`. -/
def mapDelete (m : List (String × Nat)) (id : String) : List (String × Nat) :=
  m.filter (fun p => p.1 ≠ id)

/-- The registered client ids. -/
def registered (s : ChatServer) : List String := s.clients.map Prod.fst

/-! ## Channel primitives -/

/-- Go `close(ch)`: closing a closed (or nil) channel panics. -/
def chanClose (s : ChatServer) (c : Nat) : ChatServer :=
  match s.chans[c]? with
  | none => { s with panicked := true }
  | some ch =>
      if ch.closed then { s with panicked := true }
      else { s with chans := s.chans.set c { ch with closed := true } }

/-- Result of a receive `msg, ok := <-ch`. -/
inductive RecvResult where
  | msg (m : Message)
  | closed
  | blocked
deriving DecidableEq, Repr

/-- Go `msg, ok := <-ch`: the oldest buffered message if there is one (also on
a closed channel), `ok = false` on a closed empty channel, and otherwise the
receiver stays suspended. -/
def chanRecv (s : ChatServer) (c : Nat) : ChatServer × RecvResult :=
  match s.chans[c]? with
  | none => (s, .blocked)
  | some ch =>
      match ch.buf with
      | m :: rest => ({ s with chans := s.chans.set c { ch with buf := rest } }, .msg m)
      | [] => if ch.closed then (s, .closed) else (s, .blocked)

/-- The `i`-th delivery goroutine runs its send `c <- msg`: a send on a closed
channel panics, a send on a full buffer stays blocked (`none`), otherwise the
message is appended to the buffer. -/
def deliver (s : ChatServer) (i : Nat) : Option ChatServer :=
  match s.pending[i]? with
  | none => none
  | some d =>
      match s.chans[d.c]? with
      | none => none
      | some ch =>
          if ch.closed then
            some { s with pending := s.pending.eraseIdx i, panicked := true }
          else if ch.buf.length < chanCap then
            some { s with pending := s.pending.eraseIdx i,
                          chans := s.chans.set d.c { ch with buf := ch.buf ++ [d.msg] } }
          else none

/-! ## The server operations -/

/-- Go `NewChatServer`. -/
def NewChatServer : ChatServer :=
  { history := [], clients := [], chans := [], pending := [], panicked := false }

/-- The join notice built in `Register`. -/
def joinMsg (id : String) (now : Nat) : Message :=
  { From := "system", Text := "User " ++ id ++ " joined", Time := now }

/-- Go `appendAndBroadcast`: under the lock, append to the history and copy the
map; then spawn one sending goroutine for every copied entry whose key is not
`excludeID`. -/
def appendAndBroadcast (s : ChatServer) (msg : Message) (excludeID : String) : ChatServer :=
  let clientsCopy := s.clients
  { s with
    history := s.history ++ [msg]
    pending := s.pending ++
      (clientsCopy.filter (fun p => p.1 ≠ excludeID)).map (fun p => ⟨p.1, p.2, msg⟩) }

/-- First critical section of `Register` (lines 60-72): close the old channel
if the id is registered, install a fresh channel, copy the history. -/
def registerLocked (s : ChatServer) (id : String) : ChatServer × List Message :=
  let s1 := match mapGet s.clients id with
    | some old => chanClose s old
    | none => s
  let ch := s1.chans.length
  ({ s1 with chans := s1.chans ++ [{ buf := [], closed := false, owner := id }]
             clients := mapSet s1.clients id ch }, s1.history)

/-- Go `Register`, run without interleaving of other calls. -/
def Register (s : ChatServer) (clientID : String) (now : Nat) :
    ChatServer × Except String (List Message) :=
  if clientID = "" then (s, .error "ClientID required")
  else
    let r := registerLocked s clientID
    (appendAndBroadcast r.1 (joinMsg clientID now) clientID, .ok r.2)

/-- Go `SendMessage`. -/
def SendMessage (s : ChatServer) (frm text : String) (now : Nat) :
    ChatServer × Except String Bool :=
  if frm = "" then (s, .error "From required")
  else (appendAndBroadcast s { From := frm, Text := text, Time := now } frm, .ok true)

/-- Go `Unregister`. -/
def Unregister (s : ChatServer) (clientID : String) : ChatServer × Except String Bool :=
  match mapGet s.clients clientID with
  | some ch => (chanClose { s with clients := mapDelete s.clients clientID } ch, .ok true)
  | none => (s, .ok false)

/-- Result of a `Poll` call. -/
inductive PollResult where
  | msg (m : Message)
  | error (e : String)
  | blocked
deriving DecidableEq, Repr

/-- Second part of `Poll` (lines 111-117): the receive on the channel the call
obtained. -/
def pollRecv (s : ChatServer) (c : Nat) : ChatServer × PollResult :=
  match chanRecv s c with
  | (s1, .msg m) => (s1, .msg m)
  | (s1, .closed) => (s1, .error "client channel closed")
  | (s1, .blocked) => (s1, .blocked)

/-- Go `Poll`, run without interleaving between the lookup and the receive. -/
def Poll (s : ChatServer) (clientID : String) : ChatServer × PollResult :=
  match mapGet s.clients clientID with
  | none => (s, .error "client not registered")
  | some ch => pollRecv s ch

/-! ## Sequences of calls -/

/-- One of the three mutating RPC calls. -/
inductive Call where
  | register (id : String) (now : Nat)
  | send (frm text : String) (now : Nat)
  | unregister (id : String)
deriving DecidableEq, Repr

/-- State after a call that runs to completion. -/
def applyCall (s : ChatServer) : Call → ChatServer
  | .register id now => (Register s id now).1
  | .send frm text now => (SendMessage s frm text now).1
  | .unregister id => (Unregister s id).1

/-- State after a sequence of calls, each run to completion. -/
def runCalls (s : ChatServer) (cs : List Call) : ChatServer :=
  cs.foldl applyCall s

/-- The messages a successful call hands to `appendAndBroadcast`. -/
def broadcastOf : Call → List Message
  | .register id now => if id = "" then [] else [joinMsg id now]
  | .send frm text now => if frm = "" then [] else [{ From := frm, Text := text, Time := now }]
  | .unregister _ => []

/-! ## Interleaved executions -/

/-- One entry of the ghost log of `Poll` results: the polling client, the
channel the call read, and the message it returned. -/
structure PollEvent where
  id : String
  c : Nat
  msg : Message
deriving DecidableEq, Repr

/-- The server plus the RPC calls in flight: `joining` are the `Register` calls
between their two critical sections, `polling` the `Poll` calls that hold a
channel and have not returned.  `polled` is a ghost log of the messages `Poll`
returned, in return order; `sent` a ghost log of the sends `c <- msg` that
completed (channel and message), in completion order. -/
structure World where
  srv : ChatServer
  joining : List String
  polling : List (String × Nat)
  polled : List PollEvent
  sent : List (Nat × Message)
deriving DecidableEq, Repr

/-- The scheduler's choices. -/
inductive Action where
  | registerLock (id : String)
  | registerAnnounce (i : Nat) (now : Nat)
  | sendMessage (frm text : String) (now : Nat)
  | unregister (id : String)
  | deliver (i : Nat)
  | pollLookup (id : String)
  | pollReceive (i : Nat)
deriving DecidableEq, Repr

/-- A fresh server with no call in flight. -/
def World.init : World :=
  { srv := NewChatServer, joining := [], polling := [], polled := [], sent := [] }

/-- Channel and message of the `i`-th pending send, as a log entry. -/
def sendOf (s : ChatServer) (i : Nat) : List (Nat × Message) :=
  match s.pending[i]? with
  | some d => [(d.c, d.msg)]
  | none => []

/-- One atomic step; `none` when the action is not enabled (a blocked send or
receive, an index of no goroutine or call, or a process that has panicked). -/
def step (w : World) (a : Action) : Option World :=
  if w.srv.panicked then none
  else
    match a with
    | .registerLock id =>
        if id = "" then some w
        else some { w with srv := (registerLocked w.srv id).1, joining := w.joining ++ [id] }
    | .registerAnnounce i now =>
        match w.joining[i]? with
        | none => none
        | some id =>
            some { w with srv := appendAndBroadcast w.srv (joinMsg id now) id
                          joining := w.joining.eraseIdx i }
    | .sendMessage frm text now => some { w with srv := (SendMessage w.srv frm text now).1 }
    | .unregister id => some { w with srv := (Unregister w.srv id).1 }
    | .deliver i =>
        (deliver w.srv i).map (fun s =>
          { w with srv := s
                   sent := if s.panicked then w.sent else w.sent ++ sendOf w.srv i })
    | .pollLookup id =>
        match mapGet w.srv.clients id with
        | none => some w
        | some c => some { w with polling := w.polling ++ [(id, c)] }
    | .pollReceive i =>
        match w.polling[i]? with
        | none => none
        | some (id, c) =>
            match chanRecv w.srv c with
            | (s1, .msg m) =>
                some { w with srv := s1, polling := w.polling.eraseIdx i
                              polled := w.polled ++ [{ id := id, c := c, msg := m }] }
            | (_, .closed) => some { w with polling := w.polling.eraseIdx i }
            | (_, .blocked) => none

/-- What an enabled step did to the world, case by case. -/
inductive Stepped (w : World) : Action → World → Prop where
  | same (a : Action) : Stepped w a w
  | registerLock (id : String) :
      Stepped w (.registerLock id)
        { w with srv := (registerLocked w.srv id).1, joining := w.joining ++ [id] }
  | broadcast (a : Action) (msg : Message) (ex : String) (j : List String) :
      Stepped w a { w with srv := appendAndBroadcast w.srv msg ex, joining := j }
  | unregister (id : String) :
      Stepped w (.unregister id) { w with srv := (Unregister w.srv id).1 }
  | deliverPanic (i : Nat) (d : Delivery) (ch : Chan) (hd : w.srv.pending[i]? = some d)
      (hch : w.srv.chans[d.c]? = some ch) (hc : ch.closed = true) :
      Stepped w (.deliver i)
        { w with srv := { w.srv with pending := w.srv.pending.eraseIdx i, panicked := true } }
  | deliverOk (i : Nat) (d : Delivery) (ch : Chan) (hd : w.srv.pending[i]? = some d)
      (hch : w.srv.chans[d.c]? = some ch) (hc : ch.closed = false)
      (hlen : ch.buf.length < chanCap) :
      Stepped w (.deliver i)
        { w with
          srv := { w.srv with
            pending := w.srv.pending.eraseIdx i
            chans := w.srv.chans.set d.c { ch with buf := ch.buf ++ [d.msg] } }
          sent := w.sent ++ [(d.c, d.msg)] }
  | pollLookup (id : String) (c : Nat) (hg : mapGet w.srv.clients id = some c) :
      Stepped w (.pollLookup id) { w with polling := w.polling ++ [(id, c)] }
  | pollClosed (i : Nat) :
      Stepped w (.pollReceive i) { w with polling := w.polling.eraseIdx i }
  | pollMsg (i : Nat) (id : String) (c : Nat) (ch : Chan) (m : Message) (rest : List Message)
      (hp : w.polling[i]? = some (id, c)) (hch : w.srv.chans[c]? = some ch)
      (hb : ch.buf = m :: rest) :
      Stepped w (.pollReceive i)
        { w with
          srv := { w.srv with chans := w.srv.chans.set c { ch with buf := rest } }
          polling := w.polling.eraseIdx i
          polled := w.polled ++ [{ id := id, c := c, msg := m }] }

/-- Run a schedule from a world. -/
def run (w : World) : List Action → Option World
  | [] => some w
  | a :: rest => (step w a).bind (fun w1 => run w1 rest)

/-- A world some schedule reaches from a fresh server. -/
def Reachable (w : World) : Prop := ∃ sched, run World.init sched = some w

/-- The messages `Poll` returned to client `id`, in return order. -/
def polledBy (w : World) (id : String) : List Message :=
  (w.polled.filter (fun e => e.id = id)).map PollEvent.msg

/-- The messages `Poll` calls received from channel `c`, in return order. -/
def polledFrom (polled : List PollEvent) (c : Nat) : List Message :=
  (polled.filter (fun e => e.c = c)).map PollEvent.msg

/-- The messages whose send on channel `c` completed, in completion order. -/
def sentTo (sent : List (Nat × Message)) (c : Nat) : List Message :=
  (sent.filter (fun e => e.1 = c)).map Prod.snd

/-- The buffer of channel `c` (empty for a handle of no channel). -/
def bufOf (chans : List Chan) (c : Nat) : List Message :=
  match chans[c]? with
  | some ch => ch.buf
  | none => []

/-- The `i`-th pending send overtakes no send on the same channel that was
spawned before it. -/
def inOrder (s : ChatServer) (i : Nat) : Bool :=
  match s.pending[i]? with
  | some d => (s.pending.take i).all (fun e => e.c ≠ d.c)
  | none => true

/-- An action that lets no delivery goroutine overtake an earlier one for the
same channel. -/
def Action.inOrder (s : ChatServer) : Action → Bool
  | .deliver i => ChatBroadcast.inOrder s i
  | _ => true

/-- Run a schedule in which no delivery goroutine overtakes an earlier one for
the same channel; `none` also when the schedule would do that. -/
def runInOrder (w : World) : List Action → Option World
  | [] => some w
  | a :: rest =>
      if a.inOrder w.srv then (step w a).bind (fun w1 => runInOrder w1 rest) else none

/-- A world reached from a fresh server without any overtaking delivery. -/
def ReachableInOrder (w : World) : Prop := ∃ sched, runInOrder World.init sched = some w

/-- The results of `n` successive `Poll id` calls, each run alone, and the
state after them. -/
def pollN (s : ChatServer) (id : String) : Nat → ChatServer × List PollResult
  | 0 => (s, [])
  | n + 1 =>
      let r := Poll s id
      let rr := pollN r.1 id n
      (rr.1, r.2 :: rr.2)

/-- A pending delivery whose channel is closed: its send panics. -/
def targetsClosed (s : ChatServer) (d : Delivery) : Bool :=
  match s.chans[d.c]? with
  | some ch => ch.closed
  | none => false

/-! ## Well-formed states -/

/-- Representation invariant of the registry: keys are unique (a Go map), two
ids never share a channel, and every channel in the map exists and is open. -/
def WF (s : ChatServer) : Prop :=
  (s.clients.map Prod.fst).Nodup ∧ (s.clients.map Prod.snd).Nodup ∧
    ∀ p ∈ s.clients, (s.chans[p.2]?).map Chan.closed = some false

instance (s : ChatServer) : Decidable (WF s) := by
  unfold WF; infer_instance

/-- The deliveries spawned between a state and a later one: the part of the
later `pending` after the earlier one. -/
def spawned (s s1 : ChatServer) : List Delivery := s1.pending.drop s.pending.length

/-! ## Accounting of deliveries -/

/-- The ghost owner of the channel with handle `c`. -/
def ownerOf (chans : List Chan) (c : Nat) : Option String := (chans[c]?).map Chan.owner

/-- How often `m` is buffered in channels made for `id`. -/
def inQueues (chans : List Chan) (id : String) (m : Message) : Nat :=
  (chans.map (fun ch => if ch.owner = id then ch.buf.count m else 0)).sum

/-- How many pending deliveries carry `m` for `id`. -/
def inFlight (pending : List Delivery) (id : String) (m : Message) : Nat :=
  pending.countP (fun d => d.toID = id ∧ d.msg = m)

/-- On every channel, what was polled from it followed by what it still buffers
is what was sent on it, in the order the sends completed. -/
def Fifo (w : World) : Prop :=
  ∀ c, polledFrom w.polled c ++ bufOf w.srv.chans c = sentTo w.sent c

/-- Every copy of a message that a client has polled, has buffered or has in
flight comes from its own entry of the history. -/
def Accounted (w : World) : Prop :=
  ∀ id m, (polledBy w id).count m + inQueues w.srv.chans id m + inFlight w.srv.pending id m
    ≤ w.srv.history.count m

/-- Ghost ownership: a registered id, a delivery and a polling call each hold a
channel that was made for their id. -/
def Owned (w : World) : Prop :=
  (∀ p ∈ w.srv.clients, ownerOf w.srv.chans p.2 = some p.1) ∧
  (∀ d ∈ w.srv.pending, ownerOf w.srv.chans d.c = some d.toID) ∧
  (∀ p ∈ w.polling, ownerOf w.srv.chans p.2 = some p.1)

/-- The invariant of the interleaved executions. -/
def Inv (w : World) : Prop := WF w.srv ∧ Owned w ∧ Accounted w

/-- Channels that exist keep their owner. -/
def OwnerMono (chans chans1 : List Chan) : Prop :=
  ∀ c x, ownerOf chans c = some x → ownerOf chans1 c = some x

/-! ## Schedules used as concrete executions -/

/-- Alice and bob register, alice unregisters while the delivery of bob's join
notice to her channel is still pending. -/
def scheduleUnregisterRace : List Action :=
  [.registerLock "alice", .registerAnnounce 0 1, .registerLock "bob", .registerAnnounce 0 2,
   .unregister "alice"]

/-- Alice and bob register, alice registers again while the delivery of bob's
join notice to her first channel is still pending. -/
def scheduleSupersedeRace : List Action :=
  [.registerLock "alice", .registerAnnounce 0 1, .registerLock "bob", .registerAnnounce 0 2,
   .registerLock "alice"]

/-- Alice and bob register and every delivery so far completes; bob sends "one"
and then "two"; the delivery goroutine of "two" runs before the one of "one";
alice polls twice. -/
def scheduleReorder : List Action :=
  [.registerLock "alice", .registerAnnounce 0 1, .registerLock "bob", .registerAnnounce 0 2,
   .deliver 0, .pollLookup "alice", .pollReceive 0,
   .sendMessage "bob" "one" 3, .sendMessage "bob" "two" 4,
   .deliver 1, .deliver 0,
   .pollLookup "alice", .pollReceive 0, .pollLookup "alice", .pollReceive 0]

/-- Alice and bob register, bob sends "one" and then "two", the three sends on
alice's channel run in the order they were spawned, and alice polls three
times. -/
def scheduleInOrder : List Action :=
  [.registerLock "alice", .registerAnnounce 0 1, .registerLock "bob", .registerAnnounce 0 2,
   .sendMessage "bob" "one" 3, .sendMessage "bob" "two" 4,
   .deliver 0, .deliver 0, .deliver 0,
   .pollLookup "alice", .pollReceive 0, .pollLookup "alice", .pollReceive 0,
   .pollLookup "alice", .pollReceive 0]

/-- The part of `scheduleInOrder` before alice polls: her channel then buffers
bob's join notice, "one" and "two". -/
def scheduleLoaded : List Action := scheduleInOrder.take 9

/-- The server at the end of `scheduleLoaded`. -/
def loadedServer : ChatServer := ((run World.init scheduleLoaded).getD World.init).srv

/-- A first `Poll` of alice holds her channel; bob's "one" is sent on it; alice
registers again; bob's "two" is sent on her new channel and polled; then the
first `Poll` returns "one" from the closed channel.  No send overtakes
another. -/
def scheduleSupersedeReorder : List Action :=
  [.registerLock "alice", .registerAnnounce 0 1, .registerLock "bob", .registerAnnounce 0 2,
   .deliver 0, .pollLookup "alice", .pollReceive 0,
   .pollLookup "alice",
   .sendMessage "bob" "one" 3, .deliver 0,
   .registerLock "alice", .registerAnnounce 0 4, .deliver 0,
   .sendMessage "bob" "two" 5, .deliver 0,
   .pollLookup "alice", .pollReceive 1, .pollReceive 0]

/-- The world at the end of `scheduleReorder`. -/
def reorderedWorld : World := (run World.init scheduleReorder).getD World.init

/-! ## Basic facts about the operations -/

theorem mapGet_mapDelete_self (m : List (String × Nat)) (id : String) :
    mapGet (mapDelete m id) id = none := by
  induction m with
  | nil => rfl
  | cons p rest ih =>
      obtain ⟨k, v⟩ := p
      by_cases h : k = id
      · simpa [mapDelete, List.filter_cons, h] using ih
      · simpa [mapDelete, List.filter_cons, h, mapGet] using ih

theorem mapGet_mapDelete_ne (m : List (String × Nat)) (id other : String) (h : other ≠ id) :
    mapGet (mapDelete m id) other = mapGet m other := by
  induction m with
  | nil => rfl
  | cons p rest ih =>
      obtain ⟨k, v⟩ := p
      have ih1 : mapGet (List.filter (fun p => !decide (p.1 = id)) rest) other
          = mapGet rest other := by simpa [mapDelete] using ih
      by_cases hk : k = id
      · subst hk
        have hko : ¬ k = other := fun e => h e.symm
        simp [mapDelete, List.filter_cons, mapGet, hko, ih1]
      · by_cases hko : k = other
        · subst hko
          simp [mapDelete, List.filter_cons, mapGet, h]
        · simp [mapDelete, List.filter_cons, hk, mapGet, hko, ih1]

theorem mapGet_mapSet_self (m : List (String × Nat)) (id : String) (ch : Nat) :
    mapGet (mapSet m id ch) id = some ch := by
  induction m with
  | nil => simp [mapSet, mapGet]
  | cons p rest ih =>
      obtain ⟨k, v⟩ := p
      by_cases h : k = id
      · simp [mapSet, mapGet, h]
      · simpa [mapSet, mapGet, h] using ih

theorem mapGet_mapSet_ne (m : List (String × Nat)) (id other : String) (ch : Nat)
    (h : other ≠ id) : mapGet (mapSet m id ch) other = mapGet m other := by
  induction m with
  | nil =>
      have : ¬ id = other := fun e => h e.symm
      simp [mapSet, mapGet, this]
  | cons p rest ih =>
      obtain ⟨k, v⟩ := p
      by_cases hk : k = id
      · subst hk
        have hko : ¬ k = other := fun e => h e.symm
        simp [mapSet, mapGet, hko]
      · by_cases hko : k = other
        · subst hko
          simp [mapSet, mapGet, h]
        · simp [mapSet, mapGet, hk, hko, ih]

theorem mapGet_some_mem (m : List (String × Nat)) (id : String) (c : Nat)
    (h : mapGet m id = some c) : (id, c) ∈ m := by
  induction m with
  | nil => simp [mapGet] at h
  | cons p rest ih =>
      obtain ⟨k, v⟩ := p
      by_cases hk : k = id
      · simp [mapGet, hk] at h
        simp [hk, h]
      · simp [mapGet, hk] at h
        exact List.mem_cons_of_mem _ (ih h)

theorem mapGet_isSome_iff (m : List (String × Nat)) (id : String) :
    (mapGet m id).isSome = true ↔ id ∈ m.map Prod.fst := by
  induction m with
  | nil => simp [mapGet]
  | cons p rest ih =>
      obtain ⟨k, v⟩ := p
      by_cases hk : k = id
      · simp [mapGet, hk]
      · have : ¬ id = k := fun e => hk e.symm
        simpa [mapGet, hk, this] using ih

theorem mapGet_of_mem (m : List (String × Nat)) (id : String) (c : Nat)
    (hn : (m.map Prod.fst).Nodup) (h : (id, c) ∈ m) : mapGet m id = some c := by
  induction m with
  | nil => simp at h
  | cons p rest ih =>
      obtain ⟨k, v⟩ := p
      simp only [List.map_cons, List.nodup_cons] at hn
      rcases List.mem_cons.mp h with e | e
      · simp only [Prod.mk.injEq] at e
        simp [mapGet, e.1, e.2]
      · have hk : ¬ k = id := by
          intro e2
          apply hn.1
          rw [e2]
          exact List.mem_map.mpr ⟨(id, c), e, rfl⟩
        simpa [mapGet, hk] using ih hn.2 e

theorem chanClose_history (s : ChatServer) (c : Nat) : (chanClose s c).history = s.history := by
  unfold chanClose
  split
  · rfl
  · split <;> rfl

theorem chanClose_clients (s : ChatServer) (c : Nat) : (chanClose s c).clients = s.clients := by
  unfold chanClose
  split
  · rfl
  · split <;> rfl

theorem chanClose_pending (s : ChatServer) (c : Nat) : (chanClose s c).pending = s.pending := by
  unfold chanClose
  split
  · rfl
  · split <;> rfl

theorem registerLocked_history (s : ChatServer) (id : String) :
    (registerLocked s id).1.history = s.history ∧ (registerLocked s id).2 = s.history := by
  unfold registerLocked
  cases mapGet s.clients id <;> simp [chanClose_history]

theorem registerLocked_pending (s : ChatServer) (id : String) :
    (registerLocked s id).1.pending = s.pending := by
  unfold registerLocked
  cases mapGet s.clients id <;> simp [chanClose_pending]

theorem applyCall_history (s : ChatServer) (c : Call) :
    (applyCall s c).history = s.history ++ broadcastOf c := by
  cases c with
  | register id now =>
      by_cases h : id = ""
      · simp [applyCall, Register, broadcastOf, h]
      · simp [applyCall, Register, broadcastOf, h, appendAndBroadcast, registerLocked_history]
  | send frm text now =>
      by_cases h : frm = ""
      · simp [applyCall, SendMessage, broadcastOf, h]
      · simp [applyCall, SendMessage, broadcastOf, h, appendAndBroadcast]
  | unregister id =>
      simp only [applyCall, Unregister, broadcastOf, List.append_nil]
      cases mapGet s.clients id <;> simp [chanClose_history]

theorem runCalls_history (s : ChatServer) (cs : List Call) :
    (runCalls s cs).history = s.history ++ cs.flatMap broadcastOf := by
  induction cs generalizing s with
  | nil => simp [runCalls]
  | cons c rest ih =>
      have := ih (applyCall s c)
      simp only [runCalls, List.foldl_cons] at this ⊢
      rw [this, applyCall_history, List.flatMap_cons, List.append_assoc]

theorem mem_mapSet (m : List (String × Nat)) (id : String) (v : Nat) (p : String × Nat)
    (h : p ∈ mapSet m id v) : p = (id, v) ∨ p ∈ m := by
  induction m with
  | nil => simpa [mapSet] using h
  | cons q rest ih =>
      obtain ⟨k, v0⟩ := q
      by_cases hk : k = id
      · subst hk
        simp only [mapSet, if_true, List.mem_cons] at h
        rcases h with e | e
        · exact Or.inl e
        · exact Or.inr (List.mem_cons_of_mem _ e)
      · simp only [mapSet, hk, if_false, List.mem_cons] at h
        rcases h with e | e
        · exact Or.inr (e ▸ List.mem_cons_self _ _)
        · rcases ih e with e2 | e2
          · exact Or.inl e2
          · exact Or.inr (List.mem_cons_of_mem _ e2)

/-! ## The representation invariant -/

theorem mem_keys_mapSet (m : List (String × Nat)) (id x : String) (v : Nat) :
    x ∈ (mapSet m id v).map Prod.fst ↔ x = id ∨ x ∈ m.map Prod.fst := by
  rw [← mapGet_isSome_iff, ← mapGet_isSome_iff]
  by_cases h : x = id
  · subst h
    simp [mapGet_mapSet_self]
  · simp [mapGet_mapSet_ne _ _ _ _ h, h]

theorem keys_mapSet_nodup (m : List (String × Nat)) (id : String) (v : Nat)
    (h : (m.map Prod.fst).Nodup) : ((mapSet m id v).map Prod.fst).Nodup := by
  induction m with
  | nil => simp [mapSet]
  | cons p rest ih =>
      obtain ⟨k, v0⟩ := p
      simp only [List.map_cons, List.nodup_cons] at h
      by_cases hk : k = id
      · subst hk
        simp only [mapSet, if_true, List.map_cons, List.nodup_cons]
        exact h
      · simp only [mapSet, hk, if_false, List.map_cons, List.nodup_cons]
        refine ⟨?_, ih h.2⟩
        intro hmem
        rcases (mem_keys_mapSet rest id k v).mp hmem with e | e
        · exact hk e
        · exact h.1 e

theorem keys_mapSet_of_mem (m : List (String × Nat)) (id : String) (v : Nat)
    (h : id ∈ m.map Prod.fst) : (mapSet m id v).map Prod.fst = m.map Prod.fst := by
  induction m with
  | nil => simp at h
  | cons p rest ih =>
      obtain ⟨k, v0⟩ := p
      by_cases hk : k = id
      · simp [mapSet, hk]
      · have hmem : id ∈ rest.map Prod.fst := by
          simp only [List.map_cons, List.mem_cons] at h
          rcases h with e | e
          · exact absurd e.symm hk
          · exact e
        simp [mapSet, hk, ih hmem]

theorem keys_mapDelete_nodup (m : List (String × Nat)) (id : String)
    (h : (m.map Prod.fst).Nodup) : ((mapDelete m id).map Prod.fst).Nodup :=
  h.sublist ((List.filter_sublist m).map Prod.fst)

theorem mapGet_mapDelete_some (m : List (String × Nat)) (id a : String) (c : Nat)
    (h : mapGet (mapDelete m id) a = some c) : a ≠ id ∧ mapGet m a = some c := by
  by_cases e : a = id
  · subst e
    rw [mapGet_mapDelete_self] at h
    cases h
  · exact ⟨e, by rwa [mapGet_mapDelete_ne _ _ _ e] at h⟩

/-- The invariant `WF` read through `mapGet`. -/
theorem WF_iff (s : ChatServer) :
    WF s ↔ (s.clients.map Prod.fst).Nodup ∧
      (∀ a b c, mapGet s.clients a = some c → mapGet s.clients b = some c → a = b) ∧
      (∀ a c, mapGet s.clients a = some c →
        ∃ ch, s.chans[c]? = some ch ∧ ch.closed = false) := by
  constructor
  · rintro ⟨hk, hv, ho⟩
    refine ⟨hk, ?_, ?_⟩
    · intro a b c ha hb
      have h1 := mapGet_some_mem _ _ _ ha
      have h2 := mapGet_some_mem _ _ _ hb
      have := List.inj_on_of_nodup_map hv h1 h2 rfl
      exact (Prod.mk.injEq _ _ _ _ ▸ this).1
    · intro a c ha
      have := ho _ (mapGet_some_mem _ _ _ ha)
      simpa [Option.map_eq_some'] using this
  · rintro ⟨hk, hv, ho⟩
    refine ⟨hk, ?_, ?_⟩
    · refine List.Nodup.map_on ?_ (List.Nodup.of_map _ hk)
      rintro ⟨a, c⟩ ha ⟨b, c2⟩ hb hc
      simp only at hc
      subst hc
      have := hv a b c (mapGet_of_mem _ _ _ hk ha) (mapGet_of_mem _ _ _ hk hb)
      rw [this]
    · rintro ⟨a, c⟩ hp
      obtain ⟨ch, h1, h2⟩ := ho a c (mapGet_of_mem _ _ _ hk hp)
      simp [h1, h2]

theorem NewChatServer_WF : WF NewChatServer := by decide

theorem chanClose_of_open (s : ChatServer) (c : Nat) (ch : Chan)
    (h : s.chans[c]? = some ch) (ho : ch.closed = false) :
    chanClose s c = { s with chans := s.chans.set c { ch with closed := true } } := by
  simp [chanClose, h, ho]

theorem chanClose_chans_ne (s : ChatServer) (c c2 : Nat) (h : c2 ≠ c) :
    (chanClose s c).chans[c2]? = s.chans[c2]? := by
  unfold chanClose
  split
  · rfl
  · split
    · rfl
    · simp [List.getElem?_set_ne (Ne.symm h)]

theorem chanClose_length (s : ChatServer) (c : Nat) :
    (chanClose s c).chans.length = s.chans.length := by
  unfold chanClose
  split
  · rfl
  · split
    · rfl
    · simp

theorem appendAndBroadcast_WF (s : ChatServer) (msg : Message) (ex : String) (h : WF s) :
    WF (appendAndBroadcast s msg ex) := h

theorem Unregister_WF (s : ChatServer) (id : String) (h : WF s) : WF (Unregister s id).1 := by
  rw [WF_iff] at h ⊢
  obtain ⟨hk, hv, ho⟩ := h
  unfold Unregister
  cases hg : mapGet s.clients id with
  | none => exact ⟨hk, hv, ho⟩
  | some c =>
      simp only [chanClose_clients]
      refine ⟨keys_mapDelete_nodup _ _ hk, ?_, ?_⟩
      · intro a b c2 ha hb
        exact hv a b c2 (mapGet_mapDelete_some _ _ _ _ ha).2 (mapGet_mapDelete_some _ _ _ _ hb).2
      · intro a c2 ha
        obtain ⟨hne, ha2⟩ := mapGet_mapDelete_some _ _ _ _ ha
        have hc : c2 ≠ c := fun e => hne (hv a id c2 ha2 (e ▸ hg))
        rw [chanClose_chans_ne _ _ _ hc]
        exact ho a c2 ha2

theorem registerLocked_WF (s : ChatServer) (id : String) (h : WF s) :
    WF (registerLocked s id).1 := by
  rw [WF_iff] at h ⊢
  obtain ⟨hk, hv, ho⟩ := h
  have hlt : ∀ a c, mapGet s.clients a = some c → c < s.chans.length := by
    intro a c ha
    obtain ⟨ch, h1, _⟩ := ho a c ha
    exact (List.getElem?_eq_some.mp h1).1
  unfold registerLocked
  cases hg : mapGet s.clients id with
  | none =>
      refine ⟨keys_mapSet_nodup _ _ _ hk, ?_, ?_⟩
      · intro a b c ha hb
        simp only at ha hb
        by_cases ea : a = id <;> by_cases eb : b = id
        · rw [ea, eb]
        · subst ea
          rw [mapGet_mapSet_self] at ha
          rw [mapGet_mapSet_ne _ _ _ _ eb] at hb
          have := hlt b c hb
          simp only [Option.some.injEq] at ha
          omega
        · subst eb
          rw [mapGet_mapSet_self] at hb
          rw [mapGet_mapSet_ne _ _ _ _ ea] at ha
          have := hlt a c ha
          simp only [Option.some.injEq] at hb
          omega
        · rw [mapGet_mapSet_ne _ _ _ _ ea] at ha
          rw [mapGet_mapSet_ne _ _ _ _ eb] at hb
          exact hv a b c ha hb
      · intro a c ha
        simp only at ha ⊢
        by_cases ea : a = id
        · subst ea
          rw [mapGet_mapSet_self] at ha
          simp only [Option.some.injEq] at ha
          subst ha
          exact ⟨{ buf := [], closed := false, owner := a },
            List.getElem?_concat_length _ _, rfl⟩
        · rw [mapGet_mapSet_ne _ _ _ _ ea] at ha
          obtain ⟨ch, h1, h2⟩ := ho a c ha
          refine ⟨ch, ?_, h2⟩
          rw [List.getElem?_append_left (hlt a c ha)]
          exact h1
  | some old =>
      simp only [chanClose_clients, chanClose_length]
      refine ⟨keys_mapSet_nodup _ _ _ hk, ?_, ?_⟩
      · intro a b c ha hb
        by_cases ea : a = id <;> by_cases eb : b = id
        · rw [ea, eb]
        · subst ea
          rw [mapGet_mapSet_self] at ha
          rw [mapGet_mapSet_ne _ _ _ _ eb] at hb
          have := hlt b c hb
          simp only [Option.some.injEq] at ha
          omega
        · subst eb
          rw [mapGet_mapSet_self] at hb
          rw [mapGet_mapSet_ne _ _ _ _ ea] at ha
          have := hlt a c ha
          simp only [Option.some.injEq] at hb
          omega
        · rw [mapGet_mapSet_ne _ _ _ _ ea] at ha
          rw [mapGet_mapSet_ne _ _ _ _ eb] at hb
          exact hv a b c ha hb
      · intro a c ha
        by_cases ea : a = id
        · subst ea
          rw [mapGet_mapSet_self] at ha
          simp only [Option.some.injEq] at ha
          subst ha
          refine ⟨{ buf := [], closed := false, owner := a }, ?_, rfl⟩
          rw [← chanClose_length s old]
          exact List.getElem?_concat_length _ _
        · rw [mapGet_mapSet_ne _ _ _ _ ea] at ha
          obtain ⟨ch, h1, h2⟩ := ho a c ha
          refine ⟨ch, ?_, h2⟩
          have hc : c ≠ old := fun e => ea (hv a id c ha (e ▸ hg))
          rw [List.getElem?_append_left (by rw [chanClose_length]; exact hlt a c ha),
            chanClose_chans_ne _ _ _ hc]
          exact h1

theorem Register_WF (s : ChatServer) (id : String) (now : Nat) (h : WF s) :
    WF (Register s id now).1 := by
  unfold Register
  split
  · exact h
  · exact appendAndBroadcast_WF _ _ _ (registerLocked_WF s id h)

theorem SendMessage_WF (s : ChatServer) (frm text : String) (now : Nat) (h : WF s) :
    WF (SendMessage s frm text now).1 := by
  unfold SendMessage
  split
  · exact h
  · exact appendAndBroadcast_WF _ _ _ h

/-- A state change that keeps the map and the closed flag of every channel
keeps the invariant. -/
theorem WF_of_same_closed (s s1 : ChatServer) (hc : s1.clients = s.clients)
    (hch : ∀ c : Nat, (s1.chans[c]?).map Chan.closed = (s.chans[c]?).map Chan.closed)
    (h : WF s) :
    WF s1 := by
  obtain ⟨hk, hv, ho⟩ := h
  refine ⟨hc ▸ hk, hc ▸ hv, ?_⟩
  intro p hp
  rw [hch]
  exact ho p (hc ▸ hp)

theorem deliver_WF (s s1 : ChatServer) (i : Nat) (hd : deliver s i = some s1) (h : WF s) :
    WF s1 := by
  unfold deliver at hd
  split at hd
  · cases hd
  · rename_i d _
    split at hd
    · cases hd
    · rename_i ch hch
      split at hd
      · cases hd
        exact WF_of_same_closed s _ rfl (fun _ => rfl) h
      · split at hd
        · cases hd
          refine WF_of_same_closed s _ rfl ?_ h
          intro c
          by_cases e : d.c = c
          · subst e
            have hlt := (List.getElem?_eq_some.mp hch).1
            simp [List.getElem?_set, hch, hlt]
          · simp [List.getElem?_set_ne e]
        · cases hd

theorem chanRecv_WF (s : ChatServer) (c : Nat) (h : WF s) : WF (chanRecv s c).1 := by
  unfold chanRecv
  split
  · exact h
  · rename_i ch hch
    split
    · refine WF_of_same_closed s _ rfl ?_ h
      intro c2
      by_cases e : c = c2
      · subst e
        have hlt := (List.getElem?_eq_some.mp hch).1
        simp [List.getElem?_set, hch, hlt]
      · simp [List.getElem?_set_ne e]
    · split <;> exact h

/-! ## C1: the history a registration returns -/

/-- C1: after any sequence of Register / SendMessage / Unregister calls on a
fresh server, a successful `Register id` returns exactly the messages broadcast
by the earlier calls, in order; the server history afterwards is that list
followed by the one join notice of this call, so the returned list holds one
occurrence of that notice fewer than the history: the notice of this very call
is not in it.  From any state at all, `Register` returns the history as it was
and appends exactly its join notice. -/
theorem C1_register_returns_prior_broadcasts (cs : List Call) (id : String) (now : Nat)
    (hid : id ≠ "") :
    (Register (runCalls NewChatServer cs) id now).2 = .ok (cs.flatMap broadcastOf) ∧
    (Register (runCalls NewChatServer cs) id now).1.history =
      cs.flatMap broadcastOf ++ [joinMsg id now] ∧
    (cs.flatMap broadcastOf).count (joinMsg id now) + 1 =
      (Register (runCalls NewChatServer cs) id now).1.history.count (joinMsg id now) ∧
    (∀ s : ChatServer, (Register s id now).2 = .ok s.history ∧
      (Register s id now).1.history = s.history ++ [joinMsg id now]) := by
  have hh := runCalls_history NewChatServer cs
  simp only [NewChatServer, List.nil_append] at hh
  have hr := registerLocked_history (runCalls NewChatServer cs) id
  simp only [NewChatServer] at hr
  refine ⟨?_, ?_, ?_, ?_⟩
  · simp [Register, hid, NewChatServer, hr.2, hh]
  · simp [Register, hid, NewChatServer, appendAndBroadcast, hr.1, hh]
  · simp [Register, hid, NewChatServer, appendAndBroadcast, hr.1, hh, List.count_append]
  · intro s
    have hs := registerLocked_history s id
    simp [Register, hid, appendAndBroadcast, hs.1, hs.2]

/-- Witness of C1 on the call sequence register alice, send, unregister. -/
theorem C1_register_returns_prior_broadcasts_witness :
    (Register (runCalls NewChatServer
        [.register "alice" 1, .send "alice" "hi" 2, .unregister "alice"]) "bob" 3).2
      = .ok ([.register "alice" 1, .send "alice" "hi" 2, .unregister "alice"].flatMap broadcastOf) ∧
    (Register (runCalls NewChatServer
        [.register "alice" 1, .send "alice" "hi" 2, .unregister "alice"]) "bob" 3).1.history
      = [.register "alice" 1, .send "alice" "hi" 2, .unregister "alice"].flatMap broadcastOf
          ++ [joinMsg "bob" 3] ∧
    ([Call.register "alice" 1, .send "alice" "hi" 2, .unregister "alice"].flatMap
        broadcastOf).count (joinMsg "bob" 3) + 1 =
      (Register (runCalls NewChatServer
        [.register "alice" 1, .send "alice" "hi" 2, .unregister "alice"]) "bob" 3).1.history.count
          (joinMsg "bob" 3) :=
  have h := C1_register_returns_prior_broadcasts
    [.register "alice" 1, .send "alice" "hi" 2, .unregister "alice"] "bob" 3 (by decide)
  ⟨h.1, h.2.1, h.2.2.1⟩

theorem Unregister_not_registered (s : ChatServer) (id : String) :
    id ∉ registered (Unregister s id).1 := by
  intro hm
  have h := (mapGet_isSome_iff _ _).mpr hm
  unfold Unregister at h
  cases hg : mapGet s.clients id with
  | none => simp [hg] at h
  | some ch =>
      simp only [hg, chanClose_clients] at h
      rw [mapGet_mapDelete_self] at h
      simp at h

/-! ## C5: Unregister -/

/-- C5: `Unregister id` never returns an error; its ack is true exactly when
`id` was registered; afterwards `id` is not registered and the history is the
same; a second `Unregister id` returns false and changes nothing; and in a
well-formed state every other id keeps its channel, with the same content. -/
theorem C5_unregister_result_and_idempotent (s : ChatServer) (id : String) :
    (Unregister s id).2 = .ok (decide (id ∈ registered s)) ∧
    id ∉ registered (Unregister s id).1 ∧
    (Unregister s id).1.history = s.history ∧
    Unregister (Unregister s id).1 id = ((Unregister s id).1, .ok false) ∧
    (WF s → ∀ other, other ≠ id →
      mapGet (Unregister s id).1.clients other = mapGet s.clients other ∧
      ∀ c : Nat, mapGet s.clients other = some c →
        (Unregister s id).1.chans[c]? = s.chans[c]?) := by
  have hsome := mapGet_isSome_iff s.clients id
  cases hg : mapGet s.clients id with
  | none =>
      have hnot : id ∉ registered s := by
        intro hm
        have := hsome.mpr hm
        simp [hg] at this
      refine ⟨?_, ?_, ?_, ?_, ?_⟩
      · simp [Unregister, hg, hnot]
      · simpa [Unregister, hg] using hnot
      · simp [Unregister, hg]
      · simp [Unregister, hg]
      · intro _ other _
        simp [Unregister, hg]
  | some ch =>
      have hin : id ∈ registered s := hsome.mp (by simp [hg])
      have hcl : (Unregister s id).1.clients = mapDelete s.clients id := by
        simp [Unregister, hg, chanClose_clients]
      refine ⟨?_, ?_, ?_, ?_, ?_⟩
      · simp [Unregister, hg, hin]
      · intro hm
        have := (mapGet_isSome_iff _ _).mpr hm
        rw [hcl, mapGet_mapDelete_self] at this
        simp at this
      · simp [Unregister, hg, chanClose_history]
      · have hnone : mapGet (Unregister s id).1.clients id = none := by
          rw [hcl, mapGet_mapDelete_self]
        generalize (Unregister s id).1 = s1 at hnone ⊢
        simp [Unregister, hnone]
      · intro hwf other hne
        refine ⟨by rw [hcl, mapGet_mapDelete_ne _ _ _ hne], ?_⟩
        intro c hc
        have hinj := ((WF_iff s).mp hwf).2.1
        have hcc : c ≠ ch := fun e => hne (hinj other id c hc (e ▸ hg))
        simp only [Unregister, hg]
        exact chanClose_chans_ne _ _ _ hcc

/-- Witness of C5: alice and bob registered, alice unregisters. -/
theorem C5_unregister_result_and_idempotent_witness :
    WF (runCalls NewChatServer [.register "alice" 1, .register "bob" 2]) ∧
    (Unregister (runCalls NewChatServer [.register "alice" 1, .register "bob" 2]) "alice").2
      = .ok true ∧
    mapGet (Unregister (runCalls NewChatServer
      [.register "alice" 1, .register "bob" 2]) "alice").1.clients "bob" = some 1 :=
  ⟨by decide,
   (C5_unregister_result_and_idempotent
      (runCalls NewChatServer [.register "alice" 1, .register "bob" 2]) "alice").1,
   ((C5_unregister_result_and_idempotent
      (runCalls NewChatServer [.register "alice" 1, .register "bob" 2]) "alice").2.2.2.2
        (by decide) "bob" (by decide)).1.trans (by decide)⟩

/-! ## C9: identifier validation -/

/-- C9: `Register` fails exactly on the empty ClientID and `SendMessage`
exactly on the empty From; a failed call returns the state unchanged; a
`SendMessage` with a non-empty From, registered or not, succeeds with ack true,
appends exactly its message to the history and leaves registry and channels
as they were. -/
theorem C9_identifier_validation (s : ChatServer) (text : String) (now : Nat) :
    (∀ id, (∃ e, (Register s id now).2 = .error e) ↔ id = "") ∧
    Register s "" now = (s, .error "ClientID required") ∧
    (∀ frm, (∃ e, (SendMessage s frm text now).2 = .error e) ↔ frm = "") ∧
    SendMessage s "" text now = (s, .error "From required") ∧
    (∀ frm, frm ≠ "" →
      (SendMessage s frm text now).2 = .ok true ∧
      (SendMessage s frm text now).1.history =
        s.history ++ [{ From := frm, Text := text, Time := now }] ∧
      (SendMessage s frm text now).1.clients = s.clients ∧
      (SendMessage s frm text now).1.chans = s.chans) := by
  refine ⟨?_, ?_, ?_, ?_, ?_⟩
  · intro id
    by_cases h : id = ""
    · simp [Register, h]
    · simp [Register, h]
  · simp [Register]
  · intro frm
    by_cases h : frm = ""
    · simp [SendMessage, h]
    · simp [SendMessage, h]
  · simp [SendMessage]
  · intro frm h
    simp [SendMessage, h, appendAndBroadcast]

/-- Witness of C9: a client that never registered sends a message. -/
theorem C9_identifier_validation_witness :
    (SendMessage NewChatServer "mallory" "hi" 7).2 = .ok true ∧
    (SendMessage NewChatServer "mallory" "hi" 7).1.history =
      NewChatServer.history ++ [{ From := "mallory", Text := "hi", Time := 7 }] ∧
    (SendMessage NewChatServer "mallory" "hi" 7).1.clients = NewChatServer.clients ∧
    (SendMessage NewChatServer "mallory" "hi" 7).1.chans = NewChatServer.chans :=
  (C9_identifier_validation NewChatServer "hi" 7).2.2.2.2 "mallory" (by decide)

/-! ## C10: Poll of an id without a queue -/

/-- C10: `Poll id` for an id with no entry in the registry returns the error
"client not registered" and the state unchanged; this is the case right after
`Unregister id` from any state, whatever was buffered in the channel. -/
theorem C10_poll_not_registered (s : ChatServer) (id : String) (h : id ∉ registered s) :
    Poll s id = (s, .error "client not registered") ∧
    ∀ s0 : ChatServer, Poll (Unregister s0 id).1 id =
      ((Unregister s0 id).1, .error "client not registered") := by
  have key : ∀ t : ChatServer, id ∉ registered t →
      Poll t id = (t, .error "client not registered") := by
    intro t ht
    have hn : mapGet t.clients id = none := by
      cases hg : mapGet t.clients id with
      | none => rfl
      | some c => exact absurd ((mapGet_isSome_iff _ _).mp (by simp [hg])) ht
    simp [Poll, hn]
  exact ⟨key s h, fun s0 => key _ (Unregister_not_registered s0 id)⟩

/-- Witness of C10: bob polls while only alice is registered. -/
theorem C10_poll_not_registered_witness :
    Poll (Register NewChatServer "alice" 1).1 "bob" =
      ((Register NewChatServer "alice" 1).1, .error "client not registered") ∧
    ∀ s0 : ChatServer, Poll (Unregister s0 "bob").1 "bob" =
      ((Unregister s0 "bob").1, .error "client not registered") :=
  C10_poll_not_registered (Register NewChatServer "alice" 1).1 "bob" (by decide)

/-! ## C6: the alice / bob scenario -/

/-- C6, as stated, fails: after `Register "alice"` the history holds alice's
join notice, and `Register "bob"` returns it instead of an empty history. -/
theorem C6_bob_history_not_empty :
    (Register (Register NewChatServer "alice" 1).1 "bob" 2).2 = .ok [joinMsg "alice" 1] ∧
    (Register (Register NewChatServer "alice" 1).1 "bob" 2).2 ≠ .ok [] := by
  decide

/-- C6, amended: on a fresh server `Register "alice"` returns the empty
history; then `Register "bob"` returns the history holding exactly alice's join
notice, and spawns exactly one delivery, of bob's join notice to alice's
channel; once it runs, alice's channel holds exactly that notice, which her
`Poll` returns, and bob's channel is empty. -/
theorem C6_scenario_amended (t1 t2 : Nat) :
    (Register NewChatServer "alice" t1).2 = .ok [] ∧
    (Register (Register NewChatServer "alice" t1).1 "bob" t2).2 = .ok [joinMsg "alice" t1] ∧
    (Register (Register NewChatServer "alice" t1).1 "bob" t2).1.pending =
      [{ toID := "alice", c := 0, msg := joinMsg "bob" t2 }] ∧
    mapGet (Register (Register NewChatServer "alice" t1).1 "bob" t2).1.clients "alice" = some 0 ∧
    mapGet (Register (Register NewChatServer "alice" t1).1 "bob" t2).1.clients "bob" = some 1 ∧
    ∃ s3, deliver (Register (Register NewChatServer "alice" t1).1 "bob" t2).1 0 = some s3 ∧
      s3.pending = [] ∧
      s3.chans = [{ buf := [joinMsg "bob" t2], closed := false, owner := "alice" },
                  { buf := [], closed := false, owner := "bob" }] ∧
      (Poll s3 "alice").2 = .msg (joinMsg "bob" t2) ∧
      (Poll s3 "bob").2 = .blocked := by
  refine ⟨rfl, rfl, rfl, rfl, rfl, _, rfl, rfl, rfl, rfl, rfl⟩

/-! ## Supersession and release of a waiting Poll -/

theorem registerLocked_of_registered (s : ChatServer) (id : String) (c : Nat) (ch : Chan)
    (h1 : mapGet s.clients id = some c) (h2 : s.chans[c]? = some ch)
    (h3 : ch.closed = false) :
    registerLocked s id =
      ({ s with
          chans := s.chans.set c { ch with closed := true } ++
            [{ buf := [], closed := false, owner := id }]
          clients := mapSet s.clients id s.chans.length }, s.history) := by
  simp [registerLocked, h1, chanClose_of_open s c ch h2 h3]

theorem Unregister_of_registered (s : ChatServer) (id : String) (c : Nat) (ch : Chan)
    (h1 : mapGet s.clients id = some c) (h2 : s.chans[c]? = some ch)
    (h3 : ch.closed = false) :
    Unregister s id =
      ({ s with
          chans := s.chans.set c { ch with closed := true }
          clients := mapDelete s.clients id }, .ok true) := by
  have := chanClose_of_open { s with clients := mapDelete s.clients id } c ch h2 h3
  simp [Unregister, h1, this]

theorem pollRecv_closed_empty (s : ChatServer) (c : Nat) (ch : Chan)
    (h : s.chans[c]? = some ch) (hb : ch.buf = []) (hc : ch.closed = true) :
    pollRecv s c = (s, .error "client channel closed") := by
  simp [pollRecv, chanRecv, h, hb, hc]

theorem pollRecv_open_empty (s : ChatServer) (c : Nat) (ch : Chan)
    (h : s.chans[c]? = some ch) (hb : ch.buf = []) (hc : ch.closed = false) :
    pollRecv s c = (s, .blocked) := by
  simp [pollRecv, chanRecv, h, hb, hc]

theorem pollRecv_cons (s : ChatServer) (c : Nat) (ch : Chan) (m : Message)
    (rest : List Message) (h : s.chans[c]? = some ch) (hb : ch.buf = m :: rest) :
    pollRecv s c = ({ s with chans := s.chans.set c { ch with buf := rest } }, .msg m) := by
  simp [pollRecv, chanRecv, h, hb]

/-- The three outcomes of a receive. -/
theorem chanRecv_cases (s : ChatServer) (c : Nat) :
    chanRecv s c = (s, .blocked) ∨ chanRecv s c = (s, .closed) ∨
    ∃ ch m rest, s.chans[c]? = some ch ∧ ch.buf = m :: rest ∧
      chanRecv s c = ({ s with chans := s.chans.set c { ch with buf := rest } }, .msg m) := by
  unfold chanRecv
  cases hg : s.chans[c]? with
  | none => exact Or.inl rfl
  | some ch =>
      cases hb : ch.buf with
      | nil =>
          by_cases hc : ch.closed = true
          · right; left
            simp [hb, hc]
          · left
            simp [hb, hc]
      | cons m rest =>
          right; right
          exact ⟨ch, m, rest, rfl, hb, by simp [hb]⟩

theorem chanClose_keeps_closed (s : ChatServer) (old c : Nat) (ch : Chan)
    (h : s.chans[c]? = some ch) (hc : ch.closed = true) :
    (chanClose s old).chans[c]? = some ch := by
  by_cases e : c = old
  · subst e
    simp [chanClose, h, hc]
  · rw [chanClose_chans_ne _ _ _ e]
    exact h

/-- A closed, empty channel stays closed and empty under every step. -/
theorem closed_empty_stable (w w1 : World) (a : Action) (hs : step w a = some w1)
    (c : Nat) (ch : Chan) (h : w.srv.chans[c]? = some ch) (hc : ch.closed = true)
    (hb : ch.buf = []) : w1.srv.chans[c]? = some ch := by
  have hlt : c < w.srv.chans.length := (List.getElem?_eq_some.mp h).1
  unfold step at hs
  split at hs
  · cases hs
  · cases a with
    | registerLock id =>
        simp only at hs
        split at hs
        · cases hs; exact h
        · cases hs
          simp only [registerLocked]
          cases hg : mapGet w.srv.clients id with
          | none =>
              simp only
              rw [List.getElem?_append_left hlt]
              exact h
          | some old =>
              simp only
              rw [List.getElem?_append_left (by rw [chanClose_length]; exact hlt)]
              exact chanClose_keeps_closed _ _ _ _ h hc
    | registerAnnounce i now =>
        simp only at hs
        split at hs
        · cases hs
        · cases hs; exact h
    | sendMessage frm text now =>
        simp only at hs
        cases hs
        simp only [SendMessage]
        split
        · exact h
        · exact h
    | unregister id =>
        simp only at hs
        cases hs
        simp only [Unregister]
        split
        · exact chanClose_keeps_closed _ _ _ _ h hc
        · exact h
    | deliver i =>
        simp only [Option.map_eq_some'] at hs
        obtain ⟨s1, hd, rfl⟩ := hs
        simp only
        unfold deliver at hd
        split at hd
        · cases hd
        · rename_i d _
          split at hd
          · cases hd
          · rename_i ch0 hch0
            split at hd
            · cases hd; exact h
            · rename_i hopen
              split at hd
              · cases hd
                have e : d.c ≠ c := by
                  intro e
                  rw [e, h] at hch0
                  cases hch0
                  exact hopen hc
                simp only
                rw [List.getElem?_set_ne e]
                exact h
              · cases hd
    | pollLookup id =>
        simp only at hs
        split at hs
        · cases hs; exact h
        · cases hs; exact h
    | pollReceive i =>
        simp only at hs
        split at hs
        · cases hs
        · rename_i id c0 _
          rcases chanRecv_cases w.srv c0 with e | e | ⟨ch0, m, rest, hch0, hbuf, e⟩
          · rw [e] at hs
            cases hs
          · rw [e] at hs
            cases hs; exact h
          · rw [e] at hs
            cases hs
            have e2 : c0 ≠ c := by
              intro e2
              rw [e2, h] at hch0
              cases hch0
              rw [hb] at hbuf
              cases hbuf
            simp only
            rw [List.getElem?_set_ne e2]
            exact h

/-! ## C8: supersession -/

/-- C8: when `id` is registered with channel `c`, `Register id` closes `c`
(which keeps what it had buffered), maps `id` to a channel that did not exist
before and is empty and open, keeps the list of registered ids, keeps every
other id's channel and its content, keeps the registry well-formed (one channel
per id), and does not panic; the only deliveries it adds are its join notice
to other ids, on channels that existed before, so nothing is sent into the new
channel. -/
theorem C8_supersession (s : ChatServer) (id : String) (c : Nat) (now : Nat)
    (hwf : WF s) (hid : id ≠ "") (hreg : mapGet s.clients id = some c) :
    (∃ ch, s.chans[c]? = some ch ∧ ch.closed = false ∧
      (Register s id now).1.chans[c]? = some { ch with closed := true }) ∧
    mapGet (Register s id now).1.clients id = some s.chans.length ∧
    s.chans[s.chans.length]? = none ∧
    (Register s id now).1.chans[s.chans.length]? =
      some { buf := [], closed := false, owner := id } ∧
    registered (Register s id now).1 = registered s ∧
    (∀ other, other ≠ id →
      mapGet (Register s id now).1.clients other = mapGet s.clients other ∧
      ∀ co, mapGet s.clients other = some co →
        (Register s id now).1.chans[co]? = s.chans[co]?) ∧
    WF (Register s id now).1 ∧
    (Register s id now).1.panicked = s.panicked ∧
    (∀ d ∈ (Register s id now).1.pending,
      d ∈ s.pending ∨
        (d.toID ≠ id ∧ d.c < s.chans.length ∧ d.msg = joinMsg id now)) := by
  obtain ⟨hk, hinj, hopen⟩ := (WF_iff s).mp hwf
  obtain ⟨ch, hch, hcl⟩ := hopen id c hreg
  have hlt : c < s.chans.length := (List.getElem?_eq_some.mp hch).1
  have hR : (Register s id now).1 =
      appendAndBroadcast (registerLocked s id).1 (joinMsg id now) id := by
    simp [Register, hid]
  have hL := registerLocked_of_registered s id c ch hreg hch hcl
  have hchans : (Register s id now).1.chans =
      s.chans.set c { ch with closed := true } ++
        [{ buf := [], closed := false, owner := id }] := by
    rw [hR, hL]; rfl
  have hclients : (Register s id now).1.clients = mapSet s.clients id s.chans.length := by
    rw [hR, hL]; rfl
  refine ⟨⟨ch, hch, hcl, ?_⟩, ?_, ?_, ?_, ?_, ?_, ?_, ?_, ?_⟩
  · rw [hchans, List.getElem?_append_left (by simpa using hlt)]
    simp [List.getElem?_set, hlt]
  · rw [hclients, mapGet_mapSet_self]
  · exact List.getElem?_eq_none (Nat.le_refl _)
  · rw [hchans]
    have : s.chans.length = (s.chans.set c { ch with closed := true }).length := by simp
    rw [this]
    exact List.getElem?_concat_length _ _
  · unfold registered
    rw [hclients]
    exact keys_mapSet_of_mem _ _ _ ((mapGet_isSome_iff _ _).mp (by simp [hreg]))
  · intro other hne
    refine ⟨by rw [hclients, mapGet_mapSet_ne _ _ _ _ hne], ?_⟩
    intro co hco
    obtain ⟨cho, hcho, _⟩ := hopen other co hco
    have hlt2 : co < s.chans.length := (List.getElem?_eq_some.mp hcho).1
    have hcc : c ≠ co := fun e => hne (hinj other id co hco (e ▸ hreg))
    rw [hchans, List.getElem?_append_left (by simpa using hlt2), List.getElem?_set_ne hcc]
  · exact Register_WF s id now hwf
  · rw [hR, hL]; rfl
  · intro d hd
    rw [hR, hL] at hd
    simp only [appendAndBroadcast] at hd
    rcases List.mem_append.mp hd with e | e
    · exact Or.inl e
    · right
      obtain ⟨p, hp, rfl⟩ := List.mem_map.mp e
      obtain ⟨hp1, hp2⟩ := List.mem_filter.mp hp
      have hne : p.1 ≠ id := by simpa using hp2
      refine ⟨hne, ?_, rfl⟩
      rcases mem_mapSet _ _ _ _ hp1 with e2 | e2
      · exact absurd (by rw [e2]) hne
      · obtain ⟨cho, hcho, _⟩ := hopen p.1 p.2 (mapGet_of_mem _ _ _ hk e2)
        exact (List.getElem?_eq_some.mp hcho).1

/-- Witness of C8: alice registers a second time. -/
theorem C8_supersession_witness :
    mapGet (Register (runCalls NewChatServer [.register "alice" 1, .register "bob" 2])
      "alice" 3).1.clients "alice" = some 2 ∧
    registered (Register (runCalls NewChatServer [.register "alice" 1, .register "bob" 2])
      "alice" 3).1 = ["alice", "bob"] :=
  have h := C8_supersession (runCalls NewChatServer [.register "alice" 1, .register "bob" 2])
    "alice" 0 3 (by decide) (by decide) (by decide)
  ⟨h.2.1, h.2.2.2.2.1.trans (by decide)⟩

/-! ## C2: broadcast with exclusion -/

theorem spawned_appendAndBroadcast (s : ChatServer) (msg : Message) (ex : String) :
    spawned s (appendAndBroadcast s msg ex) =
      (s.clients.filter (fun p => p.1 ≠ ex)).map (fun p => ⟨p.1, p.2, msg⟩) := by
  simp [spawned, appendAndBroadcast]

theorem spawn_filter_absent (m : List (String × Nat)) (msg : Message) (ex : String) (c : Nat)
    (h : c ∉ m.map Prod.snd) :
    ((m.filter (fun p => p.1 ≠ ex)).map
        (fun p => ({ toID := p.1, c := p.2, msg := msg } : Delivery))).filter
      (fun d => d.c = c) = [] := by
  rw [List.filter_eq_nil_iff]
  intro d hd
  obtain ⟨p, hp, rfl⟩ := List.mem_map.mp hd
  have hp2 := (List.mem_filter.mp hp).1
  simp only [decide_eq_true_eq]
  intro e
  exact h (List.mem_map.mpr ⟨p, hp2, e⟩)

theorem spawn_filter_chan (m : List (String × Nat)) (msg : Message) (ex id : String) (c : Nat)
    (hk : (m.map Prod.fst).Nodup) (hv : (m.map Prod.snd).Nodup)
    (h : mapGet m id = some c) :
    ((m.filter (fun p => p.1 ≠ ex)).map
        (fun p => ({ toID := p.1, c := p.2, msg := msg } : Delivery))).filter
      (fun d => d.c = c) = if id = ex then [] else [{ toID := id, c := c, msg := msg }] := by
  induction m with
  | nil => simp [mapGet] at h
  | cons p rest ih =>
      obtain ⟨k, v⟩ := p
      simp only [List.map_cons, List.nodup_cons] at hk hv
      by_cases e : k = id
      · subst e
        simp only [mapGet, if_true, Option.some.injEq] at h
        subst h
        have hrest := spawn_filter_absent rest msg ex v hv.1
        by_cases hex : k = ex
        · simp only [List.filter_cons, hex, ne_eq, not_true_eq_false, decide_False]
          simpa using hrest
        · simp only [List.filter_cons, hex, ne_eq, not_false_eq_true, decide_True, if_true,
            List.map_cons, if_false]
          simpa using hrest
      · simp only [mapGet, e, if_false] at h
        have hvc : v ≠ c := by
          intro e2
          subst e2
          exact hv.1 (List.mem_map.mpr ⟨(id, v), mapGet_some_mem _ _ _ h, rfl⟩)
        have := ih hk.2 hv.2 h
        by_cases hex : k = ex
        · simp only [List.filter_cons, hex, ne_eq, not_true_eq_false, decide_False]
          simpa using this
        · simp only [List.filter_cons, hex, ne_eq, not_false_eq_true, decide_True, if_true,
            List.map_cons, hvc, decide_False]
          simpa using this

/-- C2: `appendAndBroadcast s msg ex` adds to the pending deliveries, for every
registered id with channel `c`, exactly one delivery of `msg` to `c` when
`id ≠ ex` and none when `id = ex`, and nothing else.  Hence `SendMessage frm`
spawns no delivery to the channel of `frm` and `Register id` none to the
channel of `id`, and each spawns exactly one to every other registered
client's channel. -/
theorem C2_broadcast_excludes (s : ChatServer) (hwf : WF s) :
    (∀ msg ex,
      (appendAndBroadcast s msg ex).pending =
        s.pending ++ spawned s (appendAndBroadcast s msg ex) ∧
      (∀ d ∈ spawned s (appendAndBroadcast s msg ex),
        d.msg = msg ∧ d.toID ≠ ex ∧ mapGet s.clients d.toID = some d.c) ∧
      (∀ id c, mapGet s.clients id = some c →
        (spawned s (appendAndBroadcast s msg ex)).filter (fun d => d.c = c) =
          if id = ex then [] else [{ toID := id, c := c, msg := msg }])) ∧
    (∀ frm text now, frm ≠ "" → ∀ id c, mapGet s.clients id = some c →
      (spawned s (SendMessage s frm text now).1).filter (fun d => d.c = c) =
        if id = frm then []
        else [{ toID := id, c := c, msg := { From := frm, Text := text, Time := now } }]) ∧
    (∀ id now, id ≠ "" → ∀ other c, mapGet (Register s id now).1.clients other = some c →
      (spawned s (Register s id now).1).filter (fun d => d.c = c) =
        if other = id then [] else [{ toID := other, c := c, msg := joinMsg id now }]) := by
  have key : ∀ (t : ChatServer), WF t → ∀ msg ex id c, mapGet t.clients id = some c →
      (spawned t (appendAndBroadcast t msg ex)).filter (fun d => d.c = c) =
        if id = ex then [] else [{ toID := id, c := c, msg := msg }] := by
    intro t ht msg ex id c h
    rw [spawned_appendAndBroadcast]
    exact spawn_filter_chan t.clients msg ex id c ht.1 ht.2.1 h
  refine ⟨?_, ?_, ?_⟩
  · intro msg ex
    refine ⟨?_, ?_, key s hwf msg ex⟩
    · rw [spawned_appendAndBroadcast]; rfl
    · intro d hd
      rw [spawned_appendAndBroadcast] at hd
      obtain ⟨p, hp, rfl⟩ := List.mem_map.mp hd
      obtain ⟨hp1, hp2⟩ := List.mem_filter.mp hp
      refine ⟨rfl, by simpa using hp2, ?_⟩
      exact mapGet_of_mem _ _ _ hwf.1 hp1
  · intro frm text now hfrm id c h
    have : (SendMessage s frm text now).1 =
        appendAndBroadcast s { From := frm, Text := text, Time := now } frm := by
      simp [SendMessage, hfrm]
    rw [this]
    exact key s hwf _ frm id c h
  · intro id now hid other c h
    have hR : (Register s id now).1 =
        appendAndBroadcast (registerLocked s id).1 (joinMsg id now) id := by
      simp [Register, hid]
    rw [hR] at h ⊢
    have hsp : spawned s (appendAndBroadcast (registerLocked s id).1 (joinMsg id now) id) =
        spawned (registerLocked s id).1
          (appendAndBroadcast (registerLocked s id).1 (joinMsg id now) id) := by
      simp [spawned, registerLocked_pending]
    rw [hsp]
    exact key _ (registerLocked_WF s id hwf) _ id other c h

/-- Witness of C2: with alice and bob registered, alice sends "hi": one
delivery to bob's channel, none to her own. -/
theorem C2_broadcast_excludes_witness :
    (spawned (runCalls NewChatServer [.register "alice" 1, .register "bob" 2])
        (SendMessage (runCalls NewChatServer [.register "alice" 1, .register "bob" 2])
          "alice" "hi" 3).1).filter (fun d => d.c = 1) =
      [{ toID := "bob", c := 1, msg := { From := "alice", Text := "hi", Time := 3 } }] ∧
    (spawned (runCalls NewChatServer [.register "alice" 1, .register "bob" 2])
        (SendMessage (runCalls NewChatServer [.register "alice" 1, .register "bob" 2])
          "alice" "hi" 3).1).filter (fun d => d.c = 0) = [] :=
  have h := (C2_broadcast_excludes
    (runCalls NewChatServer [.register "alice" 1, .register "bob" 2]) (by decide)).2.1
      "alice" "hi" 3 (by decide)
  ⟨(h "bob" 1 (by decide)).trans (by decide), (h "alice" 0 (by decide)).trans (by decide)⟩

/-! ## The invariant of interleaved executions -/

theorem sum_map_set {α : Type} (f : α → Nat) (l : List α) (c : Nat) (x y : α)
    (h : l[c]? = some x) : ((l.set c y).map f).sum + f x = (l.map f).sum + f y := by
  induction l generalizing c with
  | nil => simp at h
  | cons a rest ih =>
      cases c with
      | zero =>
          simp only [List.getElem?_cons_zero, Option.some.injEq] at h
          subst h
          simp only [List.set_cons_zero, List.map_cons, List.sum_cons]
          omega
      | succ n =>
          simp only [List.getElem?_cons_succ] at h
          have := ih n h
          simp only [List.set_cons_succ, List.map_cons, List.sum_cons]
          omega

theorem countP_eraseIdx_add {α : Type} (p : α → Bool) (l : List α) (i : Nat) (x : α)
    (h : l[i]? = some x) : (l.eraseIdx i).countP p + (if p x then 1 else 0) = l.countP p := by
  induction l generalizing i with
  | nil => simp at h
  | cons a rest ih =>
      cases i with
      | zero =>
          simp only [List.getElem?_cons_zero, Option.some.injEq] at h
          subst h
          simp only [List.eraseIdx_cons_zero, List.countP_cons]
      | succ n =>
          simp only [List.getElem?_cons_succ] at h
          have := ih n h
          simp only [List.eraseIdx_cons_succ, List.countP_cons]
          omega

theorem mem_of_mem_eraseIdx {α : Type} (l : List α) (i : Nat) (x : α)
    (h : x ∈ l.eraseIdx i) : x ∈ l :=
  (List.eraseIdx_sublist l i).subset h

theorem OwnerMono.refl (l : List Chan) : OwnerMono l l := fun _ _ h => h

theorem OwnerMono.append (l l2 : List Chan) : OwnerMono l (l ++ l2) := by
  intro c x h
  unfold ownerOf at h ⊢
  cases hg : l[c]? with
  | none => simp [hg] at h
  | some ch =>
      have hlt := (List.getElem?_eq_some.mp hg).1
      rw [List.getElem?_append_left hlt]
      exact h

theorem OwnerMono.set (l : List Chan) (c : Nat) (ch ch1 : Chan) (h : l[c]? = some ch)
    (ho : ch1.owner = ch.owner) : OwnerMono l (l.set c ch1) := by
  intro c2 x hx
  unfold ownerOf at hx ⊢
  by_cases e : c = c2
  · subst e
    have hlt := (List.getElem?_eq_some.mp h).1
    rw [h] at hx
    simp only [Option.map_some', Option.some.injEq] at hx
    simp [List.getElem?_set, hlt, ho, hx]
  · rw [List.getElem?_set_ne e]
    exact hx

theorem OwnerMono.trans (a b c : List Chan) (h1 : OwnerMono a b) (h2 : OwnerMono b c) :
    OwnerMono a c := fun i x h => h2 i x (h1 i x h)

theorem chanClose_ownerMono (s : ChatServer) (c : Nat) :
    OwnerMono s.chans (chanClose s c).chans := by
  unfold chanClose
  split
  · exact OwnerMono.refl _
  · rename_i ch hch
    split
    · exact OwnerMono.refl _
    · exact OwnerMono.set _ _ ch _ hch rfl

theorem inQueues_set (l : List Chan) (c : Nat) (ch ch1 : Chan) (id : String) (m : Message)
    (h : l[c]? = some ch) :
    inQueues (l.set c ch1) id m + (if ch.owner = id then ch.buf.count m else 0) =
      inQueues l id m + (if ch1.owner = id then ch1.buf.count m else 0) :=
  sum_map_set (fun ch : Chan => if ch.owner = id then ch.buf.count m else 0) l c ch ch1 h

theorem chanClose_inQueues (s : ChatServer) (c : Nat) (id : String) (m : Message) :
    inQueues (chanClose s c).chans id m = inQueues s.chans id m := by
  unfold chanClose
  split
  · rfl
  · rename_i ch hch
    split
    · rfl
    · have := inQueues_set s.chans c ch { ch with closed := true } id m hch
      simp only at this ⊢
      omega

theorem inQueues_append_fresh (l : List Chan) (id x : String) (m : Message) :
    inQueues (l ++ [{ buf := [], closed := false, owner := x }]) id m = inQueues l id m := by
  simp [inQueues]

theorem registerLocked_ownerMono (s : ChatServer) (id : String) :
    OwnerMono s.chans (registerLocked s id).1.chans := by
  unfold registerLocked
  cases mapGet s.clients id with
  | none => exact OwnerMono.append _ _
  | some old => exact OwnerMono.trans _ _ _ (chanClose_ownerMono s old) (OwnerMono.append _ _)

theorem registerLocked_inQueues (s : ChatServer) (id x : String) (m : Message) :
    inQueues (registerLocked s id).1.chans x m = inQueues s.chans x m := by
  unfold registerLocked
  cases mapGet s.clients id with
  | none => exact inQueues_append_fresh _ _ _ _
  | some old =>
      simp only
      rw [inQueues_append_fresh, chanClose_inQueues]

theorem registerLocked_clients_owned (s : ChatServer) (id : String)
    (h : ∀ p ∈ s.clients, ownerOf s.chans p.2 = some p.1) :
    ∀ p ∈ (registerLocked s id).1.clients, ownerOf (registerLocked s id).1.chans p.2 = some p.1 := by
  intro p hp
  have hmono := registerLocked_ownerMono s id
  have hcl : (registerLocked s id).1.clients =
      mapSet s.clients id (registerLocked s id).1.chans.length.pred := by
    unfold registerLocked
    cases mapGet s.clients id <;> simp [chanClose_clients]
  have hfresh : ownerOf (registerLocked s id).1.chans (registerLocked s id).1.chans.length.pred
      = some id := by
    unfold registerLocked ownerOf
    cases mapGet s.clients id <;> simp
  rw [hcl] at hp
  rcases mem_mapSet _ _ _ _ hp with e | e
  · subst e
    exact hfresh
  · exact hmono _ _ (h p e)

theorem Unregister_ownerMono (s : ChatServer) (id : String) :
    OwnerMono s.chans (Unregister s id).1.chans := by
  unfold Unregister
  split
  · exact chanClose_ownerMono { s with clients := mapDelete s.clients id } _
  · exact OwnerMono.refl _

theorem Unregister_inQueues (s : ChatServer) (id x : String) (m : Message) :
    inQueues (Unregister s id).1.chans x m = inQueues s.chans x m := by
  unfold Unregister
  split
  · exact chanClose_inQueues { s with clients := mapDelete s.clients id } _ _ _
  · rfl

theorem Unregister_clients_sub (s : ChatServer) (id : String) :
    ∀ p ∈ (Unregister s id).1.clients, p ∈ s.clients := by
  intro p hp
  unfold Unregister at hp
  split at hp
  · rw [chanClose_clients] at hp
    exact (List.mem_filter.mp hp).1
  · exact hp

theorem Unregister_pending (s : ChatServer) (id : String) :
    (Unregister s id).1.pending = s.pending := by
  unfold Unregister
  split
  · exact chanClose_pending _ _
  · rfl

theorem Unregister_history (s : ChatServer) (id : String) :
    (Unregister s id).1.history = s.history := by
  unfold Unregister
  split
  · exact chanClose_history _ _
  · rfl

theorem spawn_inFlight_absent (cl : List (String × Nat)) (msg m : Message) (ex id : String)
    (h : id ∉ cl.map Prod.fst) :
    inFlight ((cl.filter (fun p => p.1 ≠ ex)).map
      (fun p => ({ toID := p.1, c := p.2, msg := msg } : Delivery))) id m = 0 := by
  unfold inFlight
  rw [List.countP_eq_zero]
  intro d hd
  obtain ⟨p, hp, rfl⟩ := List.mem_map.mp hd
  have hp2 := (List.mem_filter.mp hp).1
  simp only [decide_eq_true_eq, not_and]
  intro e
  exact absurd (List.mem_map.mpr ⟨p, hp2, e⟩) h

theorem spawn_inFlight_le (cl : List (String × Nat)) (msg m : Message) (ex id : String)
    (hk : (cl.map Prod.fst).Nodup) :
    inFlight ((cl.filter (fun p => p.1 ≠ ex)).map
      (fun p => ({ toID := p.1, c := p.2, msg := msg } : Delivery))) id m
      ≤ if msg = m then 1 else 0 := by
  induction cl with
  | nil => simp [inFlight]
  | cons p rest ih =>
      obtain ⟨k, v⟩ := p
      simp only [List.map_cons, List.nodup_cons] at hk
      by_cases hex : k = ex
      · have : List.filter (fun p => decide (p.1 ≠ ex)) ((k, v) :: rest)
            = List.filter (fun p => decide (p.1 ≠ ex)) rest := by
          simp [List.filter_cons, hex]
        rw [this]
        exact ih hk.2
      · have : List.filter (fun p => decide (p.1 ≠ ex)) ((k, v) :: rest)
            = (k, v) :: List.filter (fun p => decide (p.1 ≠ ex)) rest := by
          simp [List.filter_cons, hex]
        rw [this]
        by_cases e : k = id
        · subst e
          have h0 := spawn_inFlight_absent rest msg m ex k hk.1
          unfold inFlight at h0 ⊢
          simp only [List.map_cons, List.countP_cons, h0]
          split <;> simp_all
        · have h1 := ih hk.2
          unfold inFlight at h1 ⊢
          simp only [List.map_cons, List.countP_cons, e, false_and, decide_False]
          simpa using h1

theorem polledBy_append (w : World) (id id0 : String) (c0 : Nat) (m0 : Message) :
    polledBy { w with polled := w.polled ++ [{ id := id0, c := c0, msg := m0 }] } id =
      polledBy w id ++ (if id0 = id then [m0] else []) := by
  unfold polledBy
  by_cases e : id0 = id
  · simp [List.filter_append, e]
  · simp [List.filter_append, e]

/-- What a completed send did. -/
theorem deliver_cases (s s1 : ChatServer) (i : Nat) (h : deliver s i = some s1) :
    ∃ d ch, s.pending[i]? = some d ∧ s.chans[d.c]? = some ch ∧
      ((ch.closed = true ∧
          s1 = { s with pending := s.pending.eraseIdx i, panicked := true }) ∨
       (ch.closed = false ∧ ch.buf.length < chanCap ∧
          s1 = { s with pending := s.pending.eraseIdx i,
                        chans := s.chans.set d.c { ch with buf := ch.buf ++ [d.msg] } })) := by
  unfold deliver at h
  cases hd : s.pending[i]? with
  | none => simp [hd] at h
  | some d =>
      cases hc : s.chans[d.c]? with
      | none => simp [hd, hc] at h
      | some ch =>
          refine ⟨d, ch, rfl, hc, ?_⟩
          by_cases hcl : ch.closed = true
          · left
            simp only [hd, hc, hcl, if_true, Option.some.injEq] at h
            exact ⟨hcl, h.symm⟩
          · right
            by_cases hlen : ch.buf.length < chanCap
            · have hcf : ch.closed = false := by simpa using hcl
              refine ⟨hcf, hlen, ?_⟩
              simp [hd, hc, hcf, hlen] at h
              rw [← h]
              simp [hcf]
            · simp [hd, hc, hcl, hlen] at h

theorem count_snoc_if (l : List Message) (a m : Message) (c : Prop) [Decidable c] :
    (l ++ (if c then [a] else [])).count m = l.count m + (if c ∧ a = m then 1 else 0) := by
  by_cases hc : c <;> by_cases ha : a = m <;> simp [hc, ha, List.count_singleton]

theorem inFlight_eraseIdx (l : List Delivery) (i : Nat) (d : Delivery) (id : String)
    (m : Message) (h : l[i]? = some d) :
    inFlight (l.eraseIdx i) id m + (if d.toID = id ∧ d.msg = m then 1 else 0) =
      inFlight l id m := by
  have := countP_eraseIdx_add (fun d => decide (d.toID = id ∧ d.msg = m)) l i d h
  unfold inFlight
  simpa using this

theorem Inv_init : Inv World.init := by
  refine ⟨NewChatServer_WF, ⟨?_, ?_, ?_⟩, ?_⟩
  · intro p hp; cases hp
  · intro d hd; cases hd
  · intro p hp; cases hp
  · intro id m
    simp [World.init, NewChatServer, polledBy, inQueues, inFlight]

theorem Inv_appendAndBroadcast (w : World) (msg : Message) (ex : String) (j : List String)
    (h : Inv w) : Inv { w with srv := appendAndBroadcast w.srv msg ex, joining := j } := by
  obtain ⟨hwf, ⟨ho1, ho2, ho3⟩, hacc⟩ := h
  refine ⟨hwf, ⟨ho1, ?_, ho3⟩, ?_⟩
  · intro d hd
    simp only [appendAndBroadcast] at hd ⊢
    rcases List.mem_append.mp hd with e | e
    · exact ho2 d e
    · obtain ⟨p, hp, rfl⟩ := List.mem_map.mp e
      exact ho1 p (List.mem_filter.mp hp).1
  · intro id m
    have h1 := hacc id m
    have h2 := spawn_inFlight_le w.srv.clients msg m ex id hwf.1
    show (polledBy w id).count m + inQueues w.srv.chans id m +
      inFlight (w.srv.pending ++ (w.srv.clients.filter (fun p => p.1 ≠ ex)).map
        (fun p => ({ toID := p.1, c := p.2, msg := msg } : Delivery))) id m
      ≤ (w.srv.history ++ [msg]).count m
    have h4 : ∀ l1 l2 : List Delivery, inFlight (l1 ++ l2) id m =
        inFlight l1 id m + inFlight l2 id m := by
      intro l1 l2
      simp [inFlight]
    rw [h4, List.count_append, List.count_singleton]
    simp only [beq_iff_eq]
    omega

theorem Inv_registerLock (w : World) (id : String) (h : Inv w) :
    Inv { w with srv := (registerLocked w.srv id).1, joining := w.joining ++ [id] } := by
  obtain ⟨hwf, ⟨ho1, ho2, ho3⟩, hacc⟩ := h
  have hmono := registerLocked_ownerMono w.srv id
  refine ⟨registerLocked_WF _ _ hwf, ⟨registerLocked_clients_owned _ _ ho1, ?_, ?_⟩, ?_⟩
  · intro d hd
    simp only [registerLocked_pending] at hd
    exact hmono _ _ (ho2 d hd)
  · intro p hp
    exact hmono _ _ (ho3 p hp)
  · intro id2 m
    have h1 := hacc id2 m
    show (polledBy w id2).count m + inQueues (registerLocked w.srv id).1.chans id2 m +
      inFlight (registerLocked w.srv id).1.pending id2 m ≤ (registerLocked w.srv id).1.history.count m
    rw [registerLocked_inQueues, registerLocked_pending, (registerLocked_history w.srv id).1]
    exact h1

theorem Inv_unregister (w : World) (id : String) (h : Inv w) :
    Inv { w with srv := (Unregister w.srv id).1 } := by
  obtain ⟨hwf, ⟨ho1, ho2, ho3⟩, hacc⟩ := h
  have hmono := Unregister_ownerMono w.srv id
  refine ⟨Unregister_WF _ _ hwf, ⟨?_, ?_, ?_⟩, ?_⟩
  · intro p hp
    exact hmono _ _ (ho1 p (Unregister_clients_sub _ _ p hp))
  · intro d hd
    simp only [Unregister_pending] at hd
    exact hmono _ _ (ho2 d hd)
  · intro p hp
    exact hmono _ _ (ho3 p hp)
  · intro id2 m
    have h1 := hacc id2 m
    show (polledBy w id2).count m + inQueues (Unregister w.srv id).1.chans id2 m +
      inFlight (Unregister w.srv id).1.pending id2 m ≤ (Unregister w.srv id).1.history.count m
    rw [Unregister_inQueues, Unregister_pending, Unregister_history]
    exact h1

theorem Inv_deliver (w : World) (s1 : ChatServer) (i : Nat) (hd : deliver w.srv i = some s1)
    (h : Inv w) : Inv { w with srv := s1 } := by
  obtain ⟨hwf, ⟨ho1, ho2, ho3⟩, hacc⟩ := h
  have hwf1 := deliver_WF _ _ _ hd hwf
  obtain ⟨d, ch, hpd, hch, hcase⟩ := deliver_cases _ _ _ hd
  have hdm : d ∈ w.srv.pending := List.getElem?_mem hpd
  have hown : ch.owner = d.toID := by
    have := ho2 d hdm
    simpa [ownerOf, hch] using this
  rcases hcase with ⟨_, rfl⟩ | ⟨_, _, rfl⟩
  · refine ⟨hwf1, ⟨ho1, ?_, ho3⟩, ?_⟩
    · intro d2 hd2
      exact ho2 d2 (mem_of_mem_eraseIdx _ _ _ hd2)
    · intro id m
      have h1 := hacc id m
      have h2 := inFlight_eraseIdx w.srv.pending i d id m hpd
      show (polledBy w id).count m + inQueues w.srv.chans id m +
        inFlight (w.srv.pending.eraseIdx i) id m ≤ w.srv.history.count m
      omega
  · have hmono : OwnerMono w.srv.chans
        (w.srv.chans.set d.c { ch with buf := ch.buf ++ [d.msg] }) :=
      OwnerMono.set _ _ ch _ hch rfl
    refine ⟨hwf1, ⟨?_, ?_, ?_⟩, ?_⟩
    · intro p hp
      exact hmono _ _ (ho1 p hp)
    · intro d2 hd2
      exact hmono _ _ (ho2 d2 (mem_of_mem_eraseIdx _ _ _ hd2))
    · intro p hp
      exact hmono _ _ (ho3 p hp)
    · intro id m
      have h1 := hacc id m
      have h2 := inFlight_eraseIdx w.srv.pending i d id m hpd
      have h4 := inQueues_set w.srv.chans d.c ch { ch with buf := ch.buf ++ [d.msg] } id m hch
      show (polledBy w id).count m +
        inQueues (w.srv.chans.set d.c { ch with buf := ch.buf ++ [d.msg] }) id m +
        inFlight (w.srv.pending.eraseIdx i) id m ≤ w.srv.history.count m
      generalize inQueues (w.srv.chans.set d.c { ch with buf := ch.buf ++ [d.msg] }) id m = q
        at h4 ⊢
      generalize inFlight (w.srv.pending.eraseIdx i) id m = f1 at h2 ⊢
      generalize inFlight w.srv.pending id m = f0 at h1 h2
      simp only [hown, List.count_append, List.count_singleton, beq_iff_eq] at h4
      by_cases e1 : d.toID = id <;> by_cases e2 : d.msg = m <;>
        simp [e1, e2] at h2 h4 <;> omega

theorem Inv_pollLookup (w : World) (id : String) (c : Nat)
    (hg : mapGet w.srv.clients id = some c) (h : Inv w) :
    Inv { w with polling := w.polling ++ [(id, c)] } := by
  obtain ⟨hwf, ⟨ho1, ho2, ho3⟩, hacc⟩ := h
  refine ⟨hwf, ⟨ho1, ho2, ?_⟩, hacc⟩
  intro p hp
  rcases List.mem_append.mp hp with e | e
  · exact ho3 p e
  · simp only [List.mem_singleton] at e
    subst e
    exact ho1 _ (mapGet_some_mem _ _ _ hg)

theorem Inv_pollReceive (w w1 : World) (i : Nat) (hs : step w (.pollReceive i) = some w1)
    (h : Inv w) : Inv w1 := by
  obtain ⟨hwf, ⟨ho1, ho2, ho3⟩, hacc⟩ := h
  unfold step at hs
  split at hs
  · cases hs
  · simp only at hs
    split at hs
    · cases hs
    · rename_i id0 c0 hpi
      have hpm : (id0, c0) ∈ w.polling := List.getElem?_mem hpi
      rcases chanRecv_cases w.srv c0 with e | e | ⟨ch, m0, rest, hch, hbuf, e⟩
      · rw [e] at hs
        cases hs
      · rw [e] at hs
        cases hs
        refine ⟨hwf, ⟨ho1, ho2, ?_⟩, hacc⟩
        intro p hp
        exact ho3 p (mem_of_mem_eraseIdx _ _ _ hp)
      · have hwf1 := chanRecv_WF w.srv c0 hwf
        rw [e] at hs hwf1
        cases hs
        have hown : ch.owner = id0 := by
          have := ho3 _ hpm
          simpa [ownerOf, hch] using this
        have hmono : OwnerMono w.srv.chans (w.srv.chans.set c0 { ch with buf := rest }) :=
          OwnerMono.set _ _ ch _ hch rfl
        refine ⟨hwf1, ⟨?_, ?_, ?_⟩, ?_⟩
        · intro p hp
          exact hmono _ _ (ho1 p hp)
        · intro d hd
          exact hmono _ _ (ho2 d hd)
        · intro p hp
          exact hmono _ _ (ho3 p (mem_of_mem_eraseIdx _ _ _ hp))
        · intro id m
          have h1 := hacc id m
          have h4 := inQueues_set w.srv.chans c0 ch { ch with buf := rest } id m hch
          have h3 := polledBy_append w id id0 c0 m0
          show (polledBy { w with polled := w.polled ++ [{ id := id0, c := c0, msg := m0 }] }
              id).count m +
            inQueues (w.srv.chans.set c0 { ch with buf := rest }) id m +
            inFlight w.srv.pending id m ≤ w.srv.history.count m
          generalize inQueues (w.srv.chans.set c0 { ch with buf := rest }) id m = q at h4 ⊢
          rw [h3, count_snoc_if]
          simp only [hown, hbuf, List.count_cons, beq_iff_eq] at h4
          by_cases e1 : id0 = id <;> by_cases e2 : m0 = m <;>
            simp [e1, e2] at h4 ⊢ <;> omega

/-- Every step keeps the invariant. -/
theorem Inv_step (w w1 : World) (a : Action) (hs : step w a = some w1) (h : Inv w) :
    Inv w1 := by
  cases a with
  | pollReceive i => exact Inv_pollReceive w w1 i hs h
  | registerLock id =>
      unfold step at hs
      split at hs
      · cases hs
      · simp only at hs
        split at hs
        · cases hs; exact h
        · cases hs; exact Inv_registerLock w id h
  | registerAnnounce i now =>
      unfold step at hs
      split at hs
      · cases hs
      · simp only at hs
        split at hs
        · cases hs
        · cases hs; exact Inv_appendAndBroadcast w _ _ _ h
  | sendMessage frm text now =>
      unfold step at hs
      split at hs
      · cases hs
      · simp only at hs
        cases hs
        unfold SendMessage
        split
        · exact h
        · exact Inv_appendAndBroadcast w _ _ w.joining h
  | unregister id =>
      unfold step at hs
      split at hs
      · cases hs
      · simp only at hs
        cases hs
        exact Inv_unregister w id h
  | deliver i =>
      unfold step at hs
      split at hs
      · cases hs
      · simp only [Option.map_eq_some'] at hs
        obtain ⟨s1, hd, rfl⟩ := hs
        exact Inv_deliver w s1 i hd h
  | pollLookup id =>
      unfold step at hs
      split at hs
      · cases hs
      · simp only at hs
        split at hs
        · cases hs; exact h
        · rename_i c hg
          cases hs
          exact Inv_pollLookup w id c hg h

theorem Inv_run (sched : List Action) (w w1 : World) (hr : run w sched = some w1)
    (h : Inv w) : Inv w1 := by
  induction sched generalizing w with
  | nil =>
      simp only [run, Option.some.injEq] at hr
      exact hr ▸ h
  | cons a rest ih =>
      simp only [run] at hr
      cases hs : step w a with
      | none => simp [hs] at hr
      | some w2 =>
          rw [hs] at hr
          exact ih w2 hr (Inv_step w w2 a hs h)

/-- Every reachable world satisfies the invariant. -/
theorem Reachable.inv (w : World) (h : Reachable w) : Inv w := by
  obtain ⟨sched, hr⟩ := h
  exact Inv_run sched _ _ hr Inv_init

theorem registerLocked_panicked (s : ChatServer) (id : String) (h : WF s) :
    (registerLocked s id).1.panicked = s.panicked := by
  cases hg : mapGet s.clients id with
  | none => simp [registerLocked, hg]
  | some c =>
      obtain ⟨ch, hch, hcl⟩ := ((WF_iff s).mp h).2.2 id c hg
      rw [registerLocked_of_registered s id c ch hg hch hcl]

theorem Unregister_panicked (s : ChatServer) (id : String) (h : WF s) :
    (Unregister s id).1.panicked = s.panicked := by
  cases hg : mapGet s.clients id with
  | none => simp [Unregister, hg]
  | some c =>
      obtain ⟨ch, hch, hcl⟩ := ((WF_iff s).mp h).2.2 id c hg
      rw [Unregister_of_registered s id c ch hg hch hcl]

/-- Every enabled step is one of the cases of `Stepped`, from a process that
has not panicked. -/
theorem step_stepped (w w1 : World) (a : Action) (hs : step w a = some w1) :
    w.srv.panicked = false ∧ Stepped w a w1 := by
  unfold step at hs
  split at hs
  · cases hs
  · rename_i hnp
    refine ⟨by simpa using hnp, ?_⟩
    cases a with
    | registerLock id =>
        simp only at hs
        split at hs
        · cases hs; exact Stepped.same _
        · cases hs; exact Stepped.registerLock id
    | registerAnnounce i now =>
        simp only at hs
        split at hs
        · cases hs
        · cases hs; exact Stepped.broadcast _ _ _ _
    | sendMessage frm text now =>
        simp only at hs
        cases hs
        unfold SendMessage
        split
        · exact Stepped.same _
        · exact Stepped.broadcast _ _ _ w.joining
    | unregister id =>
        simp only at hs
        cases hs
        exact Stepped.unregister id
    | deliver i =>
        simp only [Option.map_eq_some'] at hs
        obtain ⟨s1, hd, rfl⟩ := hs
        obtain ⟨d, ch, hpd, hch, hcase⟩ := deliver_cases _ _ _ hd
        rcases hcase with ⟨hc, rfl⟩ | ⟨hc, hlen, rfl⟩
        · exact Stepped.deliverPanic i d ch hpd hch hc
        · have hnp2 : w.srv.panicked = false := by simpa using hnp
          have hsend : sendOf w.srv i = [(d.c, d.msg)] := by simp [sendOf, hpd]
          have h := Stepped.deliverOk (w := w) i d ch hpd hch hc hlen
          convert h using 2
          simp [hnp2, hsend]
    | pollLookup id =>
        simp only at hs
        split at hs
        · cases hs; exact Stepped.same _
        · rename_i c hg
          cases hs
          exact Stepped.pollLookup id c hg
    | pollReceive i =>
        simp only at hs
        split at hs
        · cases hs
        · rename_i id0 c0 hpi
          rcases chanRecv_cases w.srv c0 with e | e | ⟨ch, m0, rest, hch, hbuf, e⟩
          · rw [e] at hs; cases hs
          · rw [e] at hs; cases hs; exact Stepped.pollClosed i
          · rw [e] at hs; cases hs
            exact Stepped.pollMsg i id0 c0 ch m0 rest hpi hch hbuf

/-! ## Order within one channel -/

theorem bufOf_set (l : List Chan) (c0 : Nat) (ch ch1 : Chan) (c : Nat)
    (h : l[c0]? = some ch) :
    bufOf (l.set c0 ch1) c = if c0 = c then ch1.buf else bufOf l c := by
  have hlt := (List.getElem?_eq_some.mp h).1
  unfold bufOf
  by_cases e : c0 = c
  · subst e
    simp [List.getElem?_set, hlt]
  · simp [List.getElem?_set_ne e, e]

theorem bufOf_append_fresh (l : List Chan) (x : String) (c : Nat) :
    bufOf (l ++ [{ buf := [], closed := false, owner := x }]) c = bufOf l c := by
  unfold bufOf
  rcases Nat.lt_trichotomy c l.length with h | h | h
  · rw [List.getElem?_append_left h]
  · subst h
    rw [List.getElem?_concat_length, List.getElem?_eq_none (Nat.le_refl _)]
  · rw [List.getElem?_eq_none (by simp; omega), List.getElem?_eq_none (by omega)]

theorem chanClose_bufOf (s : ChatServer) (c0 c : Nat) :
    bufOf (chanClose s c0).chans c = bufOf s.chans c := by
  unfold chanClose
  split
  · rfl
  · rename_i ch hch
    split
    · rfl
    · simp only
      rw [bufOf_set _ _ ch _ _ hch]
      split
      · rename_i e
        subst e
        simp [bufOf, hch]
      · rfl

theorem registerLocked_bufOf (s : ChatServer) (id : String) (c : Nat) :
    bufOf (registerLocked s id).1.chans c = bufOf s.chans c := by
  unfold registerLocked
  cases mapGet s.clients id with
  | none => exact bufOf_append_fresh _ _ _
  | some old =>
      simp only
      rw [bufOf_append_fresh, chanClose_bufOf]

theorem Unregister_bufOf (s : ChatServer) (id : String) (c : Nat) :
    bufOf (Unregister s id).1.chans c = bufOf s.chans c := by
  unfold Unregister
  split
  · exact chanClose_bufOf { s with clients := mapDelete s.clients id } _ _
  · rfl

theorem bufOf_of_getElem (l : List Chan) (c : Nat) (ch : Chan) (h : l[c]? = some ch) :
    bufOf l c = ch.buf := by
  simp [bufOf, h]

theorem polledFrom_snoc (l : List PollEvent) (e : PollEvent) (c : Nat) :
    polledFrom (l ++ [e]) c = polledFrom l c ++ (if e.c = c then [e.msg] else []) := by
  unfold polledFrom
  by_cases hc : e.c = c <;> simp [List.filter_append, hc]

theorem sentTo_snoc (l : List (Nat × Message)) (c0 c : Nat) (m : Message) :
    sentTo (l ++ [(c0, m)]) c = sentTo l c ++ (if c0 = c then [m] else []) := by
  unfold sentTo
  by_cases hc : c0 = c <;> simp [List.filter_append, hc]

theorem Fifo_init : Fifo World.init := by
  intro c
  simp [World.init, NewChatServer, polledFrom, sentTo, bufOf]

/-- Every step keeps the channels first-in first-out with respect to the
completed sends. -/
theorem Fifo_step (w w1 : World) (a : Action) (hst : Stepped w a w1) (h : Fifo w) :
    Fifo w1 := by
  intro c
  have hc := h c
  cases hst with
  | same => exact hc
  | registerLock id =>
      show polledFrom w.polled c ++ bufOf (registerLocked w.srv id).1.chans c = sentTo w.sent c
      rw [registerLocked_bufOf]
      exact hc
  | broadcast a msg ex j => exact hc
  | unregister id =>
      show polledFrom w.polled c ++ bufOf (Unregister w.srv id).1.chans c = sentTo w.sent c
      rw [Unregister_bufOf]
      exact hc
  | deliverPanic i d ch hd hch hcl => exact hc
  | deliverOk i d ch hd hch hcl hlen =>
      show polledFrom w.polled c ++
        bufOf (w.srv.chans.set d.c { ch with buf := ch.buf ++ [d.msg] }) c =
          sentTo (w.sent ++ [(d.c, d.msg)]) c
      rw [bufOf_set _ _ ch _ _ hch, sentTo_snoc]
      by_cases e : d.c = c
      · subst e
        rw [bufOf_of_getElem _ _ _ hch] at hc
        simp only [if_true]
        rw [← hc, List.append_assoc]
      · simp only [e, if_false, List.append_nil]
        exact hc
  | pollLookup id c0 hg => exact hc
  | pollClosed i => exact hc
  | pollMsg i id c0 ch m rest hp hch hb =>
      show polledFrom (w.polled ++ [{ id := id, c := c0, msg := m }]) c ++
        bufOf (w.srv.chans.set c0 { ch with buf := rest }) c = sentTo w.sent c
      rw [bufOf_set _ _ ch _ _ hch, polledFrom_snoc]
      by_cases e : c0 = c
      · subst e
        rw [bufOf_of_getElem _ _ _ hch, hb] at hc
        simp only [if_true]
        rw [← hc]
        simp
      · simp only [e, if_false, List.append_nil]
        exact hc

theorem Fifo_run (sched : List Action) (w w1 : World) (hr : run w sched = some w1)
    (h : Fifo w) : Fifo w1 := by
  induction sched generalizing w with
  | nil =>
      simp only [run, Option.some.injEq] at hr
      exact hr ▸ h
  | cons a rest ih =>
      simp only [run] at hr
      cases hs : step w a with
      | none => simp [hs] at hr
      | some w2 =>
          rw [hs] at hr
          exact ih w2 hr (Fifo_step w w2 a (step_stepped w w2 a hs).2 h)

/-- In every reachable world, on every channel, the messages polled from it
followed by the messages it buffers are the messages sent on it, in the order
the sends completed. -/
theorem Reachable.fifo (w : World) (h : Reachable w) : Fifo w := by
  obtain ⟨sched, hr⟩ := h
  exact Fifo_run sched _ _ hr Fifo_init

theorem runInOrder_run (sched : List Action) (w w1 : World)
    (hr : runInOrder w sched = some w1) : run w sched = some w1 := by
  induction sched generalizing w with
  | nil => exact hr
  | cons a rest ih =>
      simp only [runInOrder] at hr
      split at hr
      · simp only [run]
        cases hs : step w a with
        | none => simp [hs] at hr
        | some w2 =>
            rw [hs] at hr
            exact ih w2 hr
      · cases hr

/-- A world reached without overtaking is reachable. -/
theorem ReachableInOrder.reachable (w : World) (h : ReachableInOrder w) : Reachable w := by
  obtain ⟨sched, hr⟩ := h
  exact ⟨sched, runInOrder_run sched _ _ hr⟩

/-- Every reachable world has a well-formed registry. -/
theorem Reachable.wf (w : World) (h : Reachable w) : WF w.srv := (Reachable.inv w h).1

/-- Every state reached by calls run one after another has a well-formed
registry. -/
theorem runCalls_WF (cs : List Call) (s : ChatServer) (h : WF s) : WF (runCalls s cs) := by
  induction cs generalizing s with
  | nil => exact h
  | cons c rest ih =>
      simp only [runCalls, List.foldl_cons]
      apply ih
      cases c with
      | register id now => exact Register_WF s id now h
      | send frm text now => exact SendMessage_WF s frm text now h
      | unregister id => exact Unregister_WF s id h

/-- In a well-formed world the `close` calls of `Register` and `Unregister`
never panic: a step that ends in a panicked process is a delivery. -/
theorem panic_only_in_deliver (w w1 : World) (a : Action) (hwf : WF w.srv)
    (hs : step w a = some w1) (hp : w1.srv.panicked = true) : ∃ i, a = .deliver i := by
  unfold step at hs
  split at hs
  · cases hs
  · rename_i hnp
    cases a with
    | deliver i => exact ⟨i, rfl⟩
    | registerLock id =>
        simp only at hs
        split at hs
        · cases hs; exact absurd hp hnp
        · cases hs
          simp only [registerLocked_panicked _ _ hwf] at hp
          exact absurd hp hnp
    | registerAnnounce i now =>
        simp only at hs
        split at hs
        · cases hs
        · cases hs; exact absurd hp hnp
    | sendMessage frm text now =>
        simp only at hs
        cases hs
        simp only [SendMessage] at hp
        split at hp
        · exact absurd hp hnp
        · exact absurd hp hnp
    | unregister id =>
        simp only at hs
        cases hs
        simp only [Unregister_panicked _ _ hwf] at hp
        exact absurd hp hnp
    | pollLookup id =>
        simp only at hs
        split at hs
        · cases hs; exact absurd hp hnp
        · cases hs; exact absurd hp hnp
    | pollReceive i =>
        simp only at hs
        split at hs
        · cases hs
        · rename_i id c0 _
          rcases chanRecv_cases w.srv c0 with e | e | ⟨ch0, m, rest, _, _, e⟩
          · rw [e] at hs; cases hs
          · rw [e] at hs; cases hs; exact absurd hp hnp
          · rw [e] at hs; cases hs; exact absurd hp hnp

/-! ## C4: deliveries and closed channels -/

/-- C4 fails on the code: after alice and bob register and alice unregisters
(or registers again), the delivery of bob's join notice to alice's first
channel is still pending and that channel is closed; when the goroutine runs,
its send panics. -/
theorem C4_pending_delivery_to_closed_channel :
    (∃ w, run World.init scheduleUnregisterRace = some w ∧
      w.srv.pending = [{ toID := "alice", c := 0, msg := joinMsg "bob" 2 }] ∧
      w.srv.panicked = false ∧
      targetsClosed w.srv { toID := "alice", c := 0, msg := joinMsg "bob" 2 } = true ∧
      (step w (.deliver 0)).map (fun w1 => w1.srv.panicked) = some true) ∧
    (∃ w, run World.init scheduleSupersedeRace = some w ∧
      w.srv.pending = [{ toID := "alice", c := 0, msg := joinMsg "bob" 2 }] ∧
      w.srv.panicked = false ∧
      targetsClosed w.srv { toID := "alice", c := 0, msg := joinMsg "bob" 2 } = true ∧
      (step w (.deliver 0)).map (fun w1 => w1.srv.panicked) = some true) := by
  refine ⟨⟨_, rfl, ?_⟩, ⟨_, rfl, ?_⟩⟩ <;> decide

/-! ## C3: order of the messages a client polls -/

/-- With a superseding `Register`, the messages one client polls can leave the
history order although no send overtakes another: a `Poll` that still holds
the closed first channel returns "one" after a later `Poll` returned "two" from
the new channel.  Order is a property of one channel, not of one client id. -/
theorem polled_by_client_reordered_by_supersession :
    ∃ w, runInOrder World.init scheduleSupersedeReorder = some w ∧
      w.srv.panicked = false ∧
      polledBy w "alice" = [joinMsg "bob" 2,
        { From := "bob", Text := "two", Time := 5 }, { From := "bob", Text := "one", Time := 3 }] ∧
      ¬ (polledBy w "alice").Sublist w.srv.history := by
  refine ⟨_, rfl, ?_⟩
  decide

theorem set_getElem?_self {α : Type} (l : List α) (c : Nat) (x : α) (h : l[c]? = some x) :
    l.set c x = l := by
  induction l generalizing c with
  | nil => rfl
  | cons a rest ih =>
      cases c with
      | zero =>
          simp only [List.getElem?_cons_zero, Option.some.injEq] at h
          simp [h]
      | succ n =>
          simp only [List.getElem?_cons_succ] at h
          simp [ih n h]

theorem Poll_cons (s : ChatServer) (id : String) (c : Nat) (ch : Chan) (m : Message)
    (rest : List Message) (hg : mapGet s.clients id = some c) (h : s.chans[c]? = some ch)
    (hb : ch.buf = m :: rest) :
    Poll s id = ({ s with chans := s.chans.set c { ch with buf := rest } }, .msg m) := by
  simp only [Poll, hg]
  exact pollRecv_cons s c ch m rest h hb

theorem deliver_open (s : ChatServer) (i : Nat) (d : Delivery) (ch : Chan)
    (hd : s.pending[i]? = some d) (hch : s.chans[d.c]? = some ch) (hc : ch.closed = false)
    (hlen : ch.buf.length < chanCap) :
    deliver s i = some { s with
      pending := s.pending.eraseIdx i
      chans := s.chans.set d.c { ch with buf := ch.buf ++ [d.msg] } } := by
  simp [deliver, hd, hch, hc, hlen]

/-- The first `k` polls of a registered client return the `k` oldest buffered
messages, oldest first, and leave the rest of the buffer. -/
theorem pollN_take (k : Nat) (s : ChatServer) (id : String) (c : Nat) (ch : Chan)
    (hg : mapGet s.clients id = some c) (h : s.chans[c]? = some ch)
    (hk : k ≤ ch.buf.length) :
    (pollN s id k).2 = (ch.buf.take k).map PollResult.msg ∧
    (pollN s id k).1 = { s with chans := s.chans.set c { ch with buf := ch.buf.drop k } } := by
  induction k generalizing s ch with
  | zero =>
      refine ⟨by simp [pollN], ?_⟩
      simp only [pollN, List.drop_zero]
      rw [set_getElem?_self _ _ _ h]
  | succ n ih =>
      cases hb : ch.buf with
      | nil => simp [hb] at hk
      | cons m rest =>
          have hlt := (List.getElem?_eq_some.mp h).1
          have hP := Poll_cons s id c ch m rest hg h hb
          have hk2 : n ≤ ({ ch with buf := rest } : Chan).buf.length := by
            simp only [hb, List.length_cons] at hk
            simpa using Nat.le_of_succ_le_succ hk
          have h2 : ({ s with chans := s.chans.set c { ch with buf := rest } } :
              ChatServer).chans[c]? = some { ch with buf := rest } := by
            simp [List.getElem?_set, hlt]
          have := ih { s with chans := s.chans.set c { ch with buf := rest } }
            { ch with buf := rest } hg h2 hk2
          simp only [pollN, hP, this.1, this.2]
          simp [List.set_set]

/-- C7: a `Poll` that holds the channel `c` of the registered `id` and waits on
it (empty buffer: the receive is blocked) gets the error "client channel
closed", with the state unchanged and no message, once `Unregister id` or a
superseding `Register id` has run, and a closed empty channel stays so under
every later step.  Strict FIFO: a delivery appends its message at the back of
the buffer; `Poll` of a registered client whose channel holds messages returns
the one at the front and removes exactly that one, so `k` polls return the `k`
oldest messages, oldest first; and in every reachable world what was polled
from a channel followed by what it buffers is what was sent on it, in the order
the sends completed. -/
theorem C7_poll_release_and_fifo (s : ChatServer) (id : String) (c : Nat) (now : Nat)
    (hwf : WF s) (hid : id ≠ "") (hreg : mapGet s.clients id = some c) :
    (∀ ch, s.chans[c]? = some ch → ch.buf = [] →
      pollRecv s c = (s, .blocked) ∧
      pollRecv (Unregister s id).1 c =
        ((Unregister s id).1, .error "client channel closed") ∧
      pollRecv (Register s id now).1 c =
        ((Register s id now).1, .error "client channel closed")) ∧
    (∀ (w w1 : World) (a : Action) (c0 : Nat) (ch0 : Chan), step w a = some w1 →
      w.srv.chans[c0]? = some ch0 → ch0.closed = true → ch0.buf = [] →
      pollRecv w1.srv c0 = (w1.srv, .error "client channel closed")) ∧
    (∀ (s0 : ChatServer) (c0 : Nat) (ch0 : Chan) (m : Message) (rest : List Message),
      s0.chans[c0]? = some ch0 → ch0.buf = m :: rest →
      pollRecv s0 c0 =
        ({ s0 with chans := s0.chans.set c0 { ch0 with buf := rest } }, .msg m)) ∧
    (∀ (s0 : ChatServer) (id0 : String) (c0 : Nat) (ch0 : Chan) (m : Message)
      (rest : List Message),
      mapGet s0.clients id0 = some c0 → s0.chans[c0]? = some ch0 → ch0.buf = m :: rest →
      Poll s0 id0 =
        ({ s0 with chans := s0.chans.set c0 { ch0 with buf := rest } }, .msg m)) ∧
    (∀ (s0 : ChatServer) (i : Nat) (d : Delivery) (ch0 : Chan),
      s0.pending[i]? = some d → s0.chans[d.c]? = some ch0 → ch0.closed = false →
      ch0.buf.length < chanCap →
      deliver s0 i = some { s0 with
        pending := s0.pending.eraseIdx i
        chans := s0.chans.set d.c { ch0 with buf := ch0.buf ++ [d.msg] } }) ∧
    (∀ (s0 : ChatServer) (id0 : String) (c0 : Nat) (ch0 : Chan) (k : Nat),
      mapGet s0.clients id0 = some c0 → s0.chans[c0]? = some ch0 → k ≤ ch0.buf.length →
      (pollN s0 id0 k).2 = (ch0.buf.take k).map PollResult.msg ∧
      (pollN s0 id0 k).1 =
        { s0 with chans := s0.chans.set c0 { ch0 with buf := ch0.buf.drop k } }) ∧
    (∀ w : World, Reachable w →
      ∀ c0, polledFrom w.polled c0 ++ bufOf w.srv.chans c0 = sentTo w.sent c0) := by
  obtain ⟨hk, hinj, hopen⟩ := (WF_iff s).mp hwf
  obtain ⟨ch, hch, hcl⟩ := hopen id c hreg
  have hlt : c < s.chans.length := (List.getElem?_eq_some.mp hch).1
  refine ⟨?_, ?_, ?_, ?_, ?_, ?_, ?_⟩
  · intro ch1 hch1 hbuf
    rw [hch] at hch1
    cases hch1
    refine ⟨pollRecv_open_empty s c ch hch hbuf hcl, ?_, ?_⟩
    · refine pollRecv_closed_empty _ c { ch with closed := true } ?_ hbuf rfl
      rw [Unregister_of_registered s id c ch hreg hch hcl]
      simp [List.getElem?_set, hlt]
    · refine pollRecv_closed_empty _ c { ch with closed := true } ?_ hbuf rfl
      have hR : (Register s id now).1 =
          appendAndBroadcast (registerLocked s id).1 (joinMsg id now) id := by
        simp [Register, hid]
      rw [hR, registerLocked_of_registered s id c ch hreg hch hcl]
      simp only [appendAndBroadcast]
      rw [List.getElem?_append_left (by simpa using hlt)]
      simp [List.getElem?_set, hlt]
  · intro w w1 a c0 ch0 hs h0 hc0 hb0
    exact pollRecv_closed_empty _ c0 ch0 (closed_empty_stable w w1 a hs c0 ch0 h0 hc0 hb0) hb0 hc0
  · intro s0 c0 ch0 m rest h0 hb0
    exact pollRecv_cons s0 c0 ch0 m rest h0 hb0
  · intro s0 id0 c0 ch0 m rest hg h0 hb0
    exact Poll_cons s0 id0 c0 ch0 m rest hg h0 hb0
  · intro s0 i d ch0 hd h0 hc0 hlen
    exact deliver_open s0 i d ch0 hd h0 hc0 hlen
  · intro s0 id0 c0 ch0 k hg h0 hk0
    exact pollN_take k s0 id0 c0 ch0 hg h0 hk0
  · intro w hw
    exact Reachable.fifo w hw

/-- Witness of C7: alice waits on her empty channel and is released by her
`Unregister` and by her second `Register`; and with bob's join notice, "one"
and "two" delivered in that order to her channel, her three polls return them
in that order and leave the channel empty. -/
theorem C7_poll_release_and_fifo_witness :
    (pollRecv (Register NewChatServer "alice" 1).1 0 =
      ((Register NewChatServer "alice" 1).1, .blocked) ∧
    pollRecv (Unregister (Register NewChatServer "alice" 1).1 "alice").1 0 =
      ((Unregister (Register NewChatServer "alice" 1).1 "alice").1,
        .error "client channel closed") ∧
    pollRecv (Register (Register NewChatServer "alice" 1).1 "alice" 2).1 0 =
      ((Register (Register NewChatServer "alice" 1).1 "alice" 2).1,
        .error "client channel closed")) ∧
    (pollN loadedServer "alice" 3).2 =
      [.msg (joinMsg "bob" 2), .msg { From := "bob", Text := "one", Time := 3 },
       .msg { From := "bob", Text := "two", Time := 4 }] ∧
    bufOf (pollN loadedServer "alice" 3).1.chans 0 = [] :=
  have h := C7_poll_release_and_fifo (Register NewChatServer "alice" 1).1 "alice" 0 2
    (by decide) (by decide) (by decide)
  have h6 := h.2.2.2.2.2.1 loadedServer "alice" 0
    { buf := [joinMsg "bob" 2, { From := "bob", Text := "one", Time := 3 },
              { From := "bob", Text := "two", Time := 4 }],
      closed := false, owner := "alice" } 3 (by decide) (by decide) (by decide)
  ⟨h.1 { buf := [], closed := false, owner := "alice" } (by decide) rfl,
   h6.1.trans (by decide), by rw [h6.2]; decide⟩

end ChatBroadcast
